import Mathlib

/-!
Shallow embedding of the minio-cluster-tool core: the topology builder
(`getInfra`), the rolling-reboot scheduler (`makeHostfile`, `areAllSetsOK`,
`haveMatchingSets`, `stringKeysSorted`) and the heal orchestrator (`heal`,
`healSet`, the shared progress map), together with theorems settling the
specification claims about them.

Go maps are modelled as association lists with Go assignment semantics
(`aupd` overwrites the first binding of a key, appends a fresh key at the
end) and lookup (`alookup` returns the first binding).  Go `int` is
modelled as `Int`.  Map iterations that the source performs in sorted key
order (via `sort.Strings`) are modelled with `List.insertionSort`; any
comparison sort produces the same, uniquely determined, sorted sequence.
URL parsing (`url.Parse(...).Hostname()` and `.Path`) is abstracted as two
function parameters `host` and `upath`: no claim depends on URL syntax.
-/

set_option maxRecDepth 20000

namespace MinioClusterTool

/-! ## Association-list maps with Go semantics -/

section AssocMap

variable {K : Type} [DecidableEq K] {α : Type}

/-- First-binding lookup, i.e. Go `v, ok := m[k]`. -/
def alookup (k : K) : List (K × α) → Option α
  | [] => none
  | (k', v) :: t => if k' = k then some v else alookup k t

/-- Go map assignment `m[k] = v`: overwrite the binding of `k` in place,
or append a fresh binding. -/
def aupd (k : K) (v : α) : List (K × α) → List (K × α)
  | [] => [(k, v)]
  | (k', v') :: t => if k' = k then (k, v) :: t else (k', v') :: aupd k v t

/-- The keys of a map, in binding order. -/
def keysOf (l : List (K × α)) : List K := l.map Prod.fst

end AssocMap

/-! ## Data model (`Pool`, `Server`, `Set`, `Disk`) -/

/-- One disk, as stored in a per-server `Set` view. -/
structure Disk where
  UUID : String
  Index : Int
  Pool : Int
  Server : String
  Set : Int
  Path : String
  State : String
deriving DecidableEq, Repr

/-- One erasure-set view.  The same logical set id recurs in several
servers; `BadDisks`/`CanReboot` are filled in globally by `getInfra`. -/
structure Set where
  SCParity : Int
  RRSCParity : Int
  BadDisks : Int
  ID : Int
  Pool : Int
  CanReboot : Bool
  Disks : List (String × Disk)
deriving DecidableEq, Repr

/-- One storage server, identified by hostname. -/
structure Server where
  Sets : List (Int × Set)
  Endpoint : String
  Rebooted : Bool
  Processed : Bool
deriving DecidableEq, Repr

/-- A pool: a namespace of servers. -/
structure Pool where
  Servers : List (String × Server)
deriving DecidableEq, Repr

/-- The disk records that the admin API reports (`madmin.Disk` fields the
code reads). -/
structure DiskRecord where
  PoolIndex : Int
  SetIndex : Int
  Endpoint : String
  DrivePath : String
  State : String
  UUID : String
  DiskIndex : Int
deriving DecidableEq, Repr

/-- Backend-wide parity configuration (`info.Backend`). -/
structure Backend where
  StandardSCParity : Int
  RRSCParity : Int
deriving DecidableEq, Repr

/-! ## Topology builder (`getInfra`) -/

/-- The disk actually stored by `getInfra` for a record `d`: a missing
drive path falls back to the URL path of the endpoint. -/
def mkDisk (upath : String → String) (d : DiskRecord) : Disk :=
  { UUID := d.UUID
    Index := d.DiskIndex
    Pool := d.PoolIndex + 1
    Server := d.Endpoint
    Set := d.SetIndex + 1
    Path := if d.DrivePath = "" then upath d.Endpoint else d.DrivePath
    State := d.State }

/-- Accumulator of `getInfra`'s first pass: the global per-`(pool,set)`
side index `setInfo`, the pool/server/set/disk model, and the server
count. -/
structure InfraState where
  setInfo : List (String × List (String × Set))
  pools : List (String × Pool)
  totalServers : Int
deriving DecidableEq, Repr

/-- One iteration of `getInfra`'s first pass over `info.Disks`. -/
def getInfraStep (host upath : String → String) (b : Backend)
    (st : InfraState) (d : DiskRecord) : InfraState :=
  let PI := toString (d.PoolIndex + 1)
  let SI := d.SetIndex + 1
  let siPool := (alookup PI st.setInfo).getD []
  let pool := (alookup PI st.pools).getD { Servers := [] }
  let hn := host d.Endpoint
  let serverTotal : Server × Int :=
    match alookup hn pool.Servers with
    | some s => (s, st.totalServers)
    | none =>
      ({ Sets := [], Endpoint := hn, Rebooted := false, Processed := false },
       st.totalServers + 1)
  let server := serverTotal.1
  let set :=
    match alookup SI server.Sets with
    | some s => s
    | none =>
      { Disks := []
        SCParity := b.StandardSCParity
        RRSCParity := b.RRSCParity
        BadDisks := 0
        ID := SI
        Pool := d.PoolIndex + 1
        CanReboot := false }
  let seti0 :=
    match alookup (toString SI) siPool with
    | some s => s
    | none =>
      { Disks := []
        SCParity := b.StandardSCParity
        RRSCParity := b.RRSCParity
        ID := SI
        Pool := d.PoolIndex + 1
        BadDisks := 0
        CanReboot := true }
  let seti := if d.State ≠ "ok" then { seti0 with BadDisks := seti0.BadDisks + 1 } else seti0
  let set' := { set with Disks := aupd d.Endpoint (mkDisk upath d) set.Disks }
  let server' := { server with Sets := aupd SI set' server.Sets }
  let pool' := { pool with Servers := aupd hn server' pool.Servers }
  { setInfo := aupd PI (aupd (toString SI) seti siPool) st.setInfo
    pools := aupd PI pool' st.pools
    totalServers := serverTotal.2 }

/-- First pass of `getInfra` over all disk records. -/
def getInfraScan (host upath : String → String) (b : Backend)
    (disks : List DiskRecord) : InfraState :=
  disks.foldl (getInfraStep host upath b) { setInfo := [], pools := [], totalServers := 0 }

/-- Second pass of `getInfra`: write the globally accumulated bad-disk
count and the derived `CanReboot` back into every server-local set view. -/
def getInfraFix (setInfo : List (String × List (String × Set)))
    (pools : List (String × Pool)) : List (String × Pool) :=
  pools.map (fun p =>
    (p.1, { Servers := p.2.Servers.map (fun sv =>
      (sv.1, { sv.2 with Sets := sv.2.Sets.map (fun se =>
        (se.1,
          match alookup (toString se.1) ((alookup p.1 setInfo).getD []) with
          | some seti =>
            { se.2 with
              CanReboot := if seti.BadDisks ≥ seti.SCParity - 1 then false else true
              BadDisks := seti.BadDisks }
          | none => se.2)) })) }))

/-- `getInfra`: build the topology from the flat disk records; returns the
pool model and the total server count. -/
def getInfra (host upath : String → String) (b : Backend)
    (disks : List DiskRecord) : List (String × Pool) × Int :=
  let st := getInfraScan host upath b disks
  (getInfraFix st.setInfo st.pools, st.totalServers)

/-- Access helpers for statements. -/
def poolAt (pools : List (String × Pool)) (PI : String) : Pool :=
  (alookup PI pools).getD { Servers := [] }

def serverAt (pools : List (String × Pool)) (PI h : String) : Option Server :=
  alookup h (poolAt pools PI).Servers

def viewAt (pools : List (String × Pool)) (PI h : String) (SI : Int) : Option Set :=
  (serverAt pools PI h).bind (fun s => alookup SI s.Sets)

def disksAt (pools : List (String × Pool)) (PI h : String) (SI : Int) :
    List (String × Disk) :=
  ((viewAt pools PI h SI).map Set.Disks).getD []

/-- The number of input records of pool key `PI` and set key `SIs` whose
state is not `"ok"`, across all servers. -/
def badCount (disks : List DiskRecord) (PI SIs : String) : Int :=
  ((disks.filter (fun d =>
    toString (d.PoolIndex + 1) = PI ∧ toString (d.SetIndex + 1) = SIs ∧
      d.State ≠ "ok")).length : Int)

/-- A record belongs to the global side index entry `(PI, SIs)`. -/
def matchesPS (d : DiskRecord) (PI SIs : String) : Prop :=
  toString (d.PoolIndex + 1) = PI ∧ toString (d.SetIndex + 1) = SIs

instance (d : DiskRecord) (PI SIs : String) : Decidable (matchesPS d PI SIs) := by
  unfold matchesPS
  infer_instance

/-- A record belongs to the per-server set view `(PI, h, SI)`. -/
def matchesView (host : String → String) (d : DiskRecord) (PI h : String) (SI : Int) : Prop :=
  toString (d.PoolIndex + 1) = PI ∧ host d.Endpoint = h ∧ d.SetIndex + 1 = SI

instance (host : String → String) (d : DiskRecord) (PI h : String) (SI : Int) :
    Decidable (matchesView host d PI h SI) := by
  unfold matchesView
  infer_instance

/-- The global side index entry for pool key `PI` and set key `SIs`. -/
def setInfoAt (st : InfraState) (PI SIs : String) : Option Set :=
  alookup SIs ((alookup PI st.setInfo).getD [])

/-- The server that `getInfraStep` extends with record `d` (the existing
binding, or the freshly created one). -/
def baseServer (host : String → String) (st : InfraState) (d : DiskRecord) : Server :=
  match serverAt st.pools (toString (d.PoolIndex + 1)) (host d.Endpoint) with
  | some s => s
  | none => { Sets := [], Endpoint := host d.Endpoint, Rebooted := false, Processed := false }

/-- The set view that `getInfraStep` extends with record `d`. -/
def baseSet (host : String → String) (b : Backend) (st : InfraState) (d : DiskRecord) : Set :=
  match alookup (d.SetIndex + 1) (baseServer host st d).Sets with
  | some s => s
  | none =>
    { Disks := []
      SCParity := b.StandardSCParity
      RRSCParity := b.RRSCParity
      BadDisks := 0
      ID := d.SetIndex + 1
      Pool := d.PoolIndex + 1
      CanReboot := false }

/-! ## String ordering

The source sorts keys with `sort.Strings` (byte-lexicographic, which on
UTF-8 agrees with codepoint-lexicographic order).  `strLe` is that total
order as an executable boolean. -/

def strLeAux : List Char → List Char → Bool
  | [], _ => true
  | _ :: _, [] => false
  | a :: as, b :: bs =>
    if a.toNat < b.toNat then true
    else if b.toNat < a.toNat then false
    else strLeAux as bs

def strLe (a b : String) : Bool := strLeAux a.data b.data

/-- The string order as a relation, for the sorting lemmas. -/
def rStr (a b : String) : Prop := strLe a b = true

instance : DecidableRel rStr := fun a b => by
  unfold rStr
  infer_instance

/-! ## Rollout scheduler (`makeHostfile`) -/

/-- `stringKeysSorted`: the keys of a map as a sorted string slice.  The
source sorts with `sort.Strings`; `insertionSort` by the same total order
produces the same uniquely determined sorted sequence. -/
def stringKeysSorted (m : List (String × Pool)) : List String :=
  List.insertionSort rStr (m.map Prod.fst)

/-- Sorted server keys of one pool (same `stringKeysSorted` helper in the
source, instantiated at `map[string]*Server`). -/
def serverKeysSorted (m : List (String × Server)) : List String :=
  List.insertionSort rStr (m.map Prod.fst)

/-- `areAllSetsOK`: a server may be scheduled only if every set it
participates in can lose a node. -/
def areAllSetsOK (s1 : Server) : Bool :=
  s1.Sets.all (fun kv => kv.2.CanReboot)

/-- `haveMatchingSets`: two servers conflict when they share membership in
any set id. -/
def haveMatchingSets (s1 s2 : Server) : Bool :=
  s1.Sets.any (fun kv => (alookup kv.1 s2.Sets).isSome)

/-- One reboot round bucket: the per-pool map `rebootRounds[i][pid]`.
The source indexes the bucket by `strconv.Atoi(poolKey)`; pool keys are
`strconv.Itoa` images, on which `Atoi` is injective, so the bucket is
keyed here by the pool key string itself. -/
def Bucket := List (String × Server)

/-- Scheduler state threaded through the `makeHostfile` loops. -/
structure SchedState where
  pools : List (String × Pool)
  rounds : List (Nat × List (String × List (String × Server)))
  unhealthy : List (String × Server)
  processed : Int
  totalServers : Int
  early : Bool
deriving DecidableEq, Repr

/-- The body of the innermost `makeHostfile` loop, for one server key of
one pool in one round: skip processed servers, move redundancy-unsafe
servers to the failure list, skip servers conflicting with a server
already in this round's pool bucket, otherwise place and mark processed. -/
def doServer (pkey : String) (stb : SchedState × List (String × Server))
    (skey : String) : SchedState × List (String × Server) :=
  let st := stb.1
  let bucket := stb.2
  let v := (alookup pkey st.pools).getD { Servers := [] }
  match alookup skey v.Servers with
  | none => (st, bucket)
  | some s =>
    if s.Processed then (st, bucket)
    else if ¬ areAllSetsOK s then
      ({ st with unhealthy := aupd s.Endpoint s st.unhealthy }, bucket)
    else
      match alookup s.Endpoint bucket with
      | some _ => (st, bucket)
      | none =>
        if bucket.any (fun rv => haveMatchingSets rv.2 s) then (st, bucket)
        else
          let s' := { s with Processed := true }
          ({ st with
              pools := aupd pkey { v with Servers := aupd skey s' v.Servers } st.pools
              processed := st.processed + 1 },
           aupd s.Endpoint s' bucket)

/-- One pool's pass within round `i`: iterate its servers in sorted key
order, then store the updated bucket back into `rounds[i]`. -/
def doPool (i : Nat) (st : SchedState) (pkey : String) : SchedState :=
  let bucket0 := (alookup pkey ((alookup i st.rounds).getD [])).getD []
  let v := (alookup pkey st.pools).getD { Servers := [] }
  let sortServKey := serverKeysSorted v.Servers
  let stb := sortServKey.foldl (doServer pkey) (st, bucket0)
  { stb.1 with
      rounds := aupd i (aupd pkey stb.2 ((alookup i stb.1.rounds).getD [])) stb.1.rounds }

/-- One full round: a pass over all pools in sorted key order. -/
def doRound (poolss : List String) (i : Nat) (st : SchedState) : SchedState :=
  poolss.foldl (doPool i) st

/-- The round loop of `makeHostfile` over the fixed 200-round horizon:
before each round, if every server has been processed, print the
total/online report (`early := true`) and stop. -/
def runRounds (poolss : List String) : List Nat → SchedState → SchedState
  | [], st => st
  | i :: rest, st =>
    if st.processed ≥ st.totalServers then { st with early := true }
    else runRounds poolss rest (doRound poolss i st)

/-- `makeHostfile` on an already-built topology: partition servers into
conflict-free reboot rounds plus the failure list.  `early` records
whether the total/online report was printed by the early-exit check. -/
def makeHostfile (pools : List (String × Pool)) (totalServers : Int) : SchedState :=
  let st0 : SchedState :=
    { pools := pools, rounds := [], unhealthy := [], processed := 0,
      totalServers := totalServers, early := false }
  runRounds (stringKeysSorted pools) (List.range 200) st0

/-- The bucket of round `i` for pool key `pid` in the final state. -/
def bucketAt (st : SchedState) (i : Nat) (pid : String) : List (String × Server) :=
  (alookup pid ((alookup i st.rounds).getD [])).getD []

/-- Two server views share an erasure set when some set id is present in
both and names the same pool (a `Set` is identified by `(pool id, set id)`). -/
def sharesErasureSet (s1 s2 : Server) : Prop :=
  ∃ sid st1 st2, alookup sid s1.Sets = some st1 ∧ alookup sid s2.Sets = some st2 ∧
    st1.Pool = st2.Pool

/-- Write a working bucket back into `rounds[i][pkey]` (the final step of
`doPool`). -/
def withBucket (st : SchedState) (i : Nat) (pkey : String)
    (bucket : List (String × Server)) : SchedState :=
  { st with rounds := aupd i (aupd pkey bucket ((alookup i st.rounds).getD [])) st.rounds }

/-- A bucket is conflict-free: no two entries share a set id. -/
def BucketSafe (bucket : List (String × Server)) : Prop :=
  List.Pairwise (fun a b =>
    haveMatchingSets a.2 b.2 = false ∧ haveMatchingSets b.2 a.2 = false) bucket

/-- Every set of every server of the pool is tagged with the pool's key. -/
def PoolTagged (pkey : String) (p : Pool) : Prop :=
  ∀ sv ∈ p.Servers, ∀ se ∈ sv.2.Sets, toString se.2.Pool = pkey

def PoolsTagged (pools : List (String × Pool)) : Prop :=
  ∀ pp ∈ pools, PoolTagged pp.1 pp.2

def BucketTagged (pkey : String) (bucket : List (String × Server)) : Prop :=
  ∀ sv ∈ bucket, ∀ se ∈ sv.2.Sets, toString se.2.Pool = pkey

/-- Number of servers over all pools. -/
def numServers (pools : List (String × Pool)) : Nat :=
  (pools.map (fun p => p.2.Servers.length)).sum

/-- Number of servers already marked processed. -/
def numProcessed (pools : List (String × Pool)) : Nat :=
  (pools.map (fun p => (p.2.Servers.filter (fun sv => sv.2.Processed)).length)).sum

/-- The combined scheduler invariant.  `rounds` is only inspected through
`bucketAt`. -/
def SchedInv (st : SchedState) : Prop :=
  -- tags
  (PoolsTagged st.pools ∧ ∀ i pkey, BucketTagged pkey (bucketAt st i pkey)) ∧
  -- conflict-freedom of every bucket
  (∀ i pkey, BucketSafe (bucketAt st i pkey)) ∧
  -- placed servers are eligible and marked processed in the pools
  (∀ i pkey sv, sv ∈ bucketAt st i pkey → areAllSetsOK sv.2 = true) ∧
  (∀ i pkey e s, alookup e (bucketAt st i pkey) = some s →
    ∃ s0, alookup e (poolAt st.pools pkey).Servers = some s0 ∧ s0.Processed = true) ∧
  -- processed pools entries passed the eligibility check; endpoints match keys
  (∀ pkey sv, sv ∈ (poolAt st.pools pkey).Servers → sv.2.Processed = true →
    areAllSetsOK sv.2 = true) ∧
  (∀ pkey sv, sv ∈ (poolAt st.pools pkey).Servers → sv.2.Endpoint = sv.1) ∧
  -- failure-list entries failed the eligibility check, and point into the pools
  (∀ e s, alookup e st.unhealthy = some s → areAllSetsOK s = false) ∧
  (∀ e s, alookup e st.unhealthy = some s →
    ∃ pkey s0, alookup e (poolAt st.pools pkey).Servers = some s0 ∧
      areAllSetsOK s0 = false) ∧
  -- an endpoint sits in at most one round of its pool
  (∀ pkey e i j, (alookup e (bucketAt st i pkey)).isSome →
    (alookup e (bucketAt st j pkey)).isSome → i = j) ∧
  -- counters
  (st.processed = (numProcessed st.pools : Int) ∧
    st.totalServers = (numServers st.pools : Int))

/-! ## Heal orchestrator (`heal`, `healSet`) -/

/-- Decimal digit accumulator of the `Atoi` model. -/
def parseDigits : List Char → Nat → Option Nat
  | [], acc => some acc
  | c :: cs, acc =>
    if 48 ≤ c.toNat ∧ c.toNat ≤ 57 then parseDigits cs (acc * 10 + (c.toNat - 48))
    else none

/-- `strconv.Atoi`, as used on pool keys by `heal` (an error panics in the
source; canonical pool keys always parse): an optional sign followed by
at least one decimal digit.  The 64-bit overflow behaviour of the source
parser is not modelled; pool keys are small. -/
def atoi (s : String) : Option Int :=
  match s.data with
  | [] => none
  | c :: cs =>
    if c = '-' then
      match cs with
      | [] => none
      | _ => (parseDigits cs 0).map (fun n => -(n : Int))
    else if c = '+' then
      match cs with
      | [] => none
      | _ => (parseDigits cs 0).map (fun n => (n : Int))
    else (parseDigits (c :: cs) 0).map (fun n => (n : Int))

/-- The key under which the monitor `healSet(poolIndex, setIndex)` writes
its progress: the source computes `fmt.Sprintf("%d/%d", poolIndex,
poolIndex)` — the pool index twice. -/
def healSetMapKey (poolIndex _setIndex : Int) : String :=
  toString poolIndex ++ "/" ++ toString poolIndex

/-- The key under which `heal` registers a unit before starting its
monitor: `fmt.Sprintf("%d/%d", poolIndex-1, si-1)`. -/
def healRegKey (poolIndex si : Int) : String :=
  toString (poolIndex - 1) ++ "/" ++ toString (si - 1)

/-- The `madmin.HealOpts` request issued by `healSet` for `(pool, set)`. -/
structure HealOpts where
  DryRun : Bool
  Remove : Bool
  Recreate : Bool
  UpdateParity : Bool
  NoLock : Bool
  Recursive : Bool
  ScanMode : Int
  Pool : Int
  Set : Int
deriving DecidableEq, Repr

/-- The heal options `healSet` hardcodes on both its initial call and every
poll: never a dry run, recursive, deep scan. -/
def healSetOpts (poolIndex setIndex : Int) : HealOpts :=
  { DryRun := false, Remove := false, Recreate := false, UpdateParity := false,
    NoLock := false, Recursive := true, ScanMode := 1,
    Pool := poolIndex, Set := setIndex }

/-- The `(pool-1, set-1)` monitor argument pairs that `heal` starts, and in
the same iteration registers under `healRegKey`: only sets of a server
whose endpoint equals the configured endpoint, or of a server in a
single-server pool.  (The source iterates the maps in unspecified order;
the set of started monitors is order-independent and is enumerated here in
sorted key order.  A pool key that `Atoi` rejects panics in the source.) -/
def healStarts (ep : String) (pools : List (String × Pool)) : List (Int × Int) :=
  (stringKeysSorted pools).flatMap (fun pkey =>
    match alookup pkey pools, atoi pkey with
    | some v, some poolIndex =>
      (serverKeysSorted v.Servers).flatMap (fun skey =>
        match alookup skey v.Servers with
        | some vv =>
          if ep = vv.Endpoint ∨ v.Servers.length = 1 then
            (List.insertionSort (fun a b : Int => a ≤ b) (vv.Sets.map Prod.fst)).map
              (fun si => (poolIndex - 1, si - 1))
          else []
        | none => [])
    | _, _ => [])

/-- One incremental heal status item: missing/corrupted/offline counts
before and after the repair attempt (`GetMissingCounts` etc.). -/
structure HealCounts where
  mb : Int
  ma : Int
  cb : Int
  ca : Int
  ob : Int
  oa : Int
deriving DecidableEq, Repr

/-- One batch of heal status items returned by a poll. -/
structure HealBatch where
  Items : List HealCounts
deriving DecidableEq, Repr

/-- The "invalid object count" of a batch: the after-repair missing,
corrupted and offline counts summed over all items. -/
def batchInvalid (b : HealBatch) : Int :=
  b.Items.foldl (fun acc v => acc + v.ma + v.ca + v.oa) 0

/-- A batch reports the scan done when no item still has any
missing/corrupted/offline count (before or after) greater than zero. -/
def batchDone (b : HealBatch) : Bool :=
  b.Items.all (fun v => ¬ (v.mb + v.ma + v.cb + v.ca + v.ob + v.oa > 0))

/-- The polling loop of `healSet(poolIndex, setIndex)`, run against a
scripted stream of poll outcomes (`none` = the heal call errored).  Result:
the sequence of writes the monitor makes to the shared progress map, and
whether the monitor returned (on return, the deferred cleanup writes `0`
under `healSetMapKey`).  An empty remaining script models a monitor that
is still polling. -/
def healSetPollWrites (poolIndex setIndex : Int) :
    List (Option HealBatch) → List (String × Int) × Bool
  | [] => ([], false)
  | none :: _ => ([(healSetMapKey poolIndex setIndex, 0)], true)
  | some b :: rest =>
    let w := (healSetMapKey poolIndex setIndex, batchInvalid b)
    if batchDone b then ([w, (healSetMapKey poolIndex setIndex, 0)], true)
    else
      let wt := healSetPollWrites poolIndex setIndex rest
      (w :: wt.1, wt.2)

/-- All writes of one `healSet` monitor: if even the initial heal-start
call errors, the only write is the deferred cleanup `0`. -/
def healSetWrites (poolIndex setIndex : Int) (startOk : Bool)
    (polls : List (Option HealBatch)) : List (String × Int) × Bool :=
  if startOk then healSetPollWrites poolIndex setIndex polls
  else ([(healSetMapKey poolIndex setIndex, 0)], true)

/-- Apply a sequence of writes to the shared `healMap`. -/
def applyWrites (m : List (String × Int)) (ws : List (String × Int)) :
    List (String × Int) :=
  ws.foldl (fun acc kv => aupd kv.1 kv.2 acc) m

/-- One sweep of the aggregator loop: sum all tracked counts. -/
def aggSum (m : List (String × Int)) : Int :=
  m.foldl (fun acc kv => acc + kv.2) 0

/-- The aggregator declares overall success exactly when the sweep sum is
zero. -/
def aggDone (m : List (String × Int)) : Bool :=
  aggSum m = 0

/-! ## Concrete test topologies

Small inputs used by witnesses and counterexamples.  `exHost` plays the
role of `url.Parse(...).Hostname()`: endpoints are named `"a1"`, `"b2"`,
... and the hostname is the first character. -/

def exHost : String → String := fun e => e.take 1

def exPath : String → String := fun _ => ""

/-- Backend with standard parity 2. -/
def bpar : Backend := { StandardSCParity := 2, RRSCParity := 1 }

/-- One pool, one server `a`, set 1, one healthy disk. -/
def rsOK : List DiskRecord :=
  [ { PoolIndex := 0, SetIndex := 0, Endpoint := "a1", DrivePath := "/d1",
      State := "ok", UUID := "u1", DiskIndex := 0 } ]

/-- One pool, one server `b`, set 1, one bad disk. -/
def rsBad : List DiskRecord :=
  [ { PoolIndex := 0, SetIndex := 1, Endpoint := "b1", DrivePath := "/d2",
      State := "offline", UUID := "u2", DiskIndex := 0 } ]

/-- One pool, two servers: `a` healthy (set 1), `b` with a bad disk in its
own set 2. -/
def rsC4 : List DiskRecord :=
  [ { PoolIndex := 0, SetIndex := 0, Endpoint := "a1", DrivePath := "/d1",
      State := "ok", UUID := "u1", DiskIndex := 0 },
    { PoolIndex := 0, SetIndex := 1, Endpoint := "b1", DrivePath := "/d2",
      State := "offline", UUID := "u2", DiskIndex := 0 } ]

/-- Two pools, one healthy sole server each (`a` in pool 1, `c` in pool 2),
both using set id 1. -/
def rsTwoPools : List DiskRecord :=
  [ { PoolIndex := 0, SetIndex := 0, Endpoint := "a1", DrivePath := "/d1",
      State := "ok", UUID := "u1", DiskIndex := 0 },
    { PoolIndex := 1, SetIndex := 0, Endpoint := "c1", DrivePath := "/d3",
      State := "ok", UUID := "u3", DiskIndex := 0 } ]

/-- One pool, one set spanning two servers `a` and `b`; the disk on `b` is
bad. -/
def rsShared : List DiskRecord :=
  [ { PoolIndex := 0, SetIndex := 0, Endpoint := "a1", DrivePath := "/d1",
      State := "ok", UUID := "u1", DiskIndex := 0 },
    { PoolIndex := 0, SetIndex := 0, Endpoint := "b1", DrivePath := "/d2",
      State := "offline", UUID := "u2", DiskIndex := 1 } ]

/-- One pool/server/set with two records carrying the same endpoint
string: the second (bad) record overwrites the first in `Disks`. -/
def rsDupEndpoint : List DiskRecord :=
  [ { PoolIndex := 0, SetIndex := 0, Endpoint := "a1", DrivePath := "/d1",
      State := "ok", UUID := "u1", DiskIndex := 0 },
    { PoolIndex := 0, SetIndex := 0, Endpoint := "a1", DrivePath := "/d9",
      State := "offline", UUID := "u9", DiskIndex := 9 } ]

/-! ## Map-iteration-order equivalence

Go map iteration order is unspecified; the assoc-list embedding fixes an
order.  Two assoc lists that are permutations of each other with
duplicate-free keys represent the same Go map under two iteration orders.
`PoolsEquiv` is that relation for the two-level pools-of-servers map, and
`SchedEquiv` extends it to whole scheduler states whose other fields
coincide. -/

def PoolsEquiv (p1 p2 : List (String × Pool)) : Prop :=
  (keysOf p1).Nodup ∧ (keysOf p2).Nodup ∧ (keysOf p1).Perm (keysOf p2) ∧
  ∀ pp ∈ p1, ∃ v2, alookup pp.1 p2 = some v2 ∧
    (keysOf pp.2.Servers).Nodup ∧ (keysOf v2.Servers).Nodup ∧
    pp.2.Servers.Perm v2.Servers

def SchedEquiv (st1 st2 : SchedState) : Prop :=
  PoolsEquiv st1.pools st2.pools ∧ st1.rounds = st2.rounds ∧
  st1.unhealthy = st2.unhealthy ∧ st1.processed = st2.processed ∧
  st1.totalServers = st2.totalServers ∧ st1.early = st2.early

/-- Concrete two-pool topology for the determinism witness, in two map
iteration orders. -/
def srvA : Server :=
  { Sets := [], Endpoint := "a", Rebooted := false, Processed := false }

def srvC : Server :=
  { Sets := [], Endpoint := "c", Rebooted := false, Processed := false }

def poolsFwd : List (String × Pool) :=
  [("1", { Servers := [("a", srvA)] }), ("2", { Servers := [("c", srvC)] })]

def poolsRev : List (String × Pool) :=
  [("2", { Servers := [("c", srvC)] }), ("1", { Servers := [("a", srvA)] })]

/-! ## Association-list lemmas -/

section AssocLemmas

variable {K : Type} [DecidableEq K] {α : Type}

theorem alookup_aupd_self (k : K) (v : α) (l : List (K × α)) :
    alookup k (aupd k v l) = some v := by
  induction l with
  | nil => simp [aupd, alookup]
  | cons h t ih =>
    by_cases hk : h.1 = k
    · simp [aupd, hk, alookup]
    · simp [aupd, hk, alookup, ih]

theorem alookup_aupd_ne {k k' : K} (h : k' ≠ k) (v : α) (l : List (K × α)) :
    alookup k (aupd k' v l) = alookup k l := by
  induction l with
  | nil => simp [aupd, alookup, h]
  | cons hd t ih =>
    by_cases hk : hd.1 = k'
    · have hne : ¬ hd.1 = k := by rw [hk]; exact h
      simp [aupd, hk, alookup, h, hne]
    · have hkk : ¬ k = k' := fun hh => h hh.symm
      by_cases hk2 : hd.1 = k
      · simp [aupd, hk, alookup, hk2, hkk]
      · simp [aupd, hk, alookup, hk2, ih]

theorem keysOf_aupd_of_mem {k : K} {l : List (K × α)} (h : k ∈ keysOf l) (v : α) :
    keysOf (aupd k v l) = keysOf l := by
  induction l with
  | nil => simp [keysOf] at h
  | cons hd t ih =>
    by_cases hk : hd.1 = k
    · simp [aupd, hk, keysOf]
    · have ht : k ∈ keysOf t := by
        rcases (by simpa [keysOf] using h : k = hd.1 ∨ k ∈ List.map Prod.fst t) with h1 | h1
        · exact absurd h1.symm hk
        · simpa [keysOf] using h1
      have := ih ht
      simp only [aupd, hk, if_false, keysOf, List.map_cons] at *
      rw [this]

theorem keysOf_aupd_of_not_mem {k : K} {l : List (K × α)} (h : k ∉ keysOf l) (v : α) :
    keysOf (aupd k v l) = keysOf l ++ [k] := by
  induction l with
  | nil => simp [aupd, keysOf]
  | cons hd t ih =>
    have hk : hd.1 ≠ k := by
      intro hh; exact h (by simp [keysOf, hh])
    have ht : k ∉ keysOf t := by
      intro hh
      exact h (by simp [keysOf] at hh ⊢; exact Or.inr hh)
    have := ih ht
    simp only [aupd, hk, if_false, keysOf, List.map_cons, List.cons_append] at *
    rw [this]

theorem aupd_of_not_mem {k : K} {l : List (K × α)} (h : k ∉ keysOf l) (v : α) :
    aupd k v l = l ++ [(k, v)] := by
  induction l with
  | nil => simp [aupd]
  | cons hd t ih =>
    have hk : hd.1 ≠ k := by
      intro hh; exact h (by simp [keysOf, hh])
    have ht : k ∉ keysOf t := by
      intro hh
      exact h (by simp [keysOf] at hh ⊢; exact Or.inr hh)
    simp [aupd, hk, ih ht]

theorem alookup_isSome_iff_mem_keys {k : K} {l : List (K × α)} :
    (alookup k l).isSome ↔ k ∈ keysOf l := by
  induction l with
  | nil => simp [alookup, keysOf]
  | cons hd t ih =>
    by_cases hk : hd.1 = k
    · simp [alookup, hk, keysOf]
    · have hne : ¬ k = hd.1 := fun hh => hk hh.symm
      simp [alookup, hk, keysOf, ih, hne]

theorem alookup_eq_none_of_not_mem {k : K} {l : List (K × α)} (h : k ∉ keysOf l) :
    alookup k l = none := by
  cases hl : alookup k l with
  | none => rfl
  | some v =>
    exact absurd (alookup_isSome_iff_mem_keys.mp (by simp [hl])) h

theorem mem_of_alookup_eq_some {k : K} {v : α} {l : List (K × α)}
    (h : alookup k l = some v) : (k, v) ∈ l := by
  induction l with
  | nil => simp [alookup] at h
  | cons hd t ih =>
    by_cases hk : hd.1 = k
    · have h2 : hd.2 = v := by simpa [alookup, hk] using h
      have : hd = (k, v) := by
        cases hd
        simp only at hk h2
        rw [hk, h2]
      rw [List.mem_cons]
      exact Or.inl this.symm
    · rw [List.mem_cons]
      exact Or.inr (ih (by simpa [alookup, hk] using h))

theorem mem_aupd {k : K} {v : α} {l : List (K × α)} {x : K × α}
    (h : x ∈ aupd k v l) : x = (k, v) ∨ x ∈ l := by
  induction l with
  | nil => simpa [aupd] using h
  | cons hd t ih =>
    by_cases hk : hd.1 = k
    · rcases (by simpa [aupd, hk] using h : x = (k, v) ∨ x ∈ t) with h1 | h1
      · exact Or.inl h1
      · exact Or.inr (by rw [List.mem_cons]; exact Or.inr h1)
    · rcases (by simpa [aupd, hk] using h : x = hd ∨ x ∈ aupd k v t) with h1 | h1
      · exact Or.inr (by rw [List.mem_cons]; exact Or.inl h1)
      · rcases ih h1 with h2 | h2
        · exact Or.inl h2
        · exact Or.inr (by rw [List.mem_cons]; exact Or.inr h2)

theorem numServers_aupd (pools : List (String × Pool)) (pkey : String) (v' : Pool) :
    numServers (aupd pkey v' pools) + (poolAt pools pkey).Servers.length =
      numServers pools + v'.Servers.length := by
  induction pools with
  | nil => simp [aupd, numServers, poolAt, alookup]
  | cons hd t ih =>
    by_cases hk : hd.1 = pkey
    · subst hk
      simp [aupd, numServers, poolAt, alookup]
      omega
    · have hne : ¬ hd.1 = pkey := hk
      simp only [aupd, hne, if_false, numServers, List.map_cons, List.sum_cons,
        poolAt, alookup] at *
      omega

theorem numProcessed_aupd (pools : List (String × Pool)) (pkey : String) (v' : Pool) :
    numProcessed (aupd pkey v' pools) +
        ((poolAt pools pkey).Servers.filter (fun sv => sv.2.Processed)).length =
      numProcessed pools + (v'.Servers.filter (fun sv => sv.2.Processed)).length := by
  induction pools with
  | nil => simp [aupd, numProcessed, poolAt, alookup]
  | cons hd t ih =>
    by_cases hk : hd.1 = pkey
    · subst hk
      simp [aupd, numProcessed, poolAt, alookup]
      omega
    · have hne : ¬ hd.1 = pkey := hk
      simp only [aupd, hne, if_false, numProcessed, List.map_cons, List.sum_cons,
        poolAt, alookup] at *
      omega


/-- Sorted helper used for `foldl` state invariants. -/
theorem foldl_preserve {β γ : Type} (P : β → Prop) (f : β → γ → β)
    (h : ∀ b x, P b → P (f b x)) :
    ∀ (l : List γ) (b : β), P b → P (List.foldl f b l) := by
  intro l
  induction l with
  | nil => intro b hb; simpa using hb
  | cons x t ih => intro b hb; exact ih (f b x) (h b x hb)

end AssocLemmas

/-! ## String-order lemmas -/

theorem strLeAux_total (as bs : List Char) :
    strLeAux as bs = true ∨ strLeAux bs as = true := by
  induction as generalizing bs with
  | nil => left; simp [strLeAux]
  | cons a at' ih =>
    cases bs with
    | nil => right; simp [strLeAux]
    | cons b bt =>
      by_cases h1 : a.toNat < b.toNat
      · left; simp [strLeAux, h1]
      · by_cases h2 : b.toNat < a.toNat
        · right; simp [strLeAux, h2]
        · have h3 : ¬ b.toNat < a.toNat := h2
          rcases ih bt with h | h
          · left; simp [strLeAux, h1, h2, h]
          · right; simp [strLeAux, h1, h3, h]

theorem strLeAux_trans {as bs cs : List Char}
    (h1 : strLeAux as bs = true) (h2 : strLeAux bs cs = true) :
    strLeAux as cs = true := by
  induction as generalizing bs cs with
  | nil => simp [strLeAux]
  | cons a at' ih =>
    cases bs with
    | nil => simp [strLeAux] at h1
    | cons b bt =>
      cases cs with
      | nil => simp [strLeAux] at h2
      | cons c ct =>
        by_cases hab : a.toNat < b.toNat
        · by_cases hbc : b.toNat < c.toNat
          · have : a.toNat < c.toNat := Nat.lt_trans hab hbc
            simp [strLeAux, this]
          · by_cases hcb : c.toNat < b.toNat
            · simp [strLeAux, hbc, hcb] at h2
            · have hbceq : b.toNat = c.toNat := Nat.le_antisymm
                (Nat.le_of_not_lt hcb) (Nat.le_of_not_lt hbc)
              have : a.toNat < c.toNat := hbceq ▸ hab
              simp [strLeAux, this]
        · by_cases hba : b.toNat < a.toNat
          · simp [strLeAux, hab, hba] at h1
          · have habeq : a.toNat = b.toNat := Nat.le_antisymm
              (Nat.le_of_not_lt hba) (Nat.le_of_not_lt hab)
            by_cases hbc : b.toNat < c.toNat
            · have : a.toNat < c.toNat := habeq ▸ hbc
              simp [strLeAux, this]
            · by_cases hcb : c.toNat < b.toNat
              · simp [strLeAux, hbc, hcb] at h2
              · have h1' : strLeAux at' bt = true := by
                  simpa [strLeAux, hab, hba] using h1
                have h2' : strLeAux bt ct = true := by
                  simpa [strLeAux, hbc, hcb] using h2
                have hac1 : ¬ a.toNat < c.toNat := by omega
                have hac2 : ¬ c.toNat < a.toNat := by omega
                simp [strLeAux, hac1, hac2, ih h1' h2']

theorem strLeAux_antisymm {as bs : List Char}
    (h1 : strLeAux as bs = true) (h2 : strLeAux bs as = true) : as = bs := by
  induction as generalizing bs with
  | nil =>
    cases bs with
    | nil => rfl
    | cons b bt => simp [strLeAux] at h2
  | cons a at' ih =>
    cases bs with
    | nil => simp [strLeAux] at h1
    | cons b bt =>
      by_cases hab : a.toNat < b.toNat
      · have : ¬ a.toNat < b.toNat → False := fun h => h hab
        simp [strLeAux, hab, Nat.lt_asymm hab] at h2
      · by_cases hba : b.toNat < a.toNat
        · simp [strLeAux, hab, hba] at h1
        · have habeq : a = b := by
            apply Char.ext
            exact UInt32.toNat.inj (Nat.le_antisymm
              (Nat.le_of_not_lt hba) (Nat.le_of_not_lt hab))
          have h1' : strLeAux at' bt = true := by
            simpa [strLeAux, hab, hba] using h1
          have h2' : strLeAux bt at' = true := by
            simpa [strLeAux, hab, hba] using h2
          rw [habeq, ih h1' h2']

instance : IsTotal String rStr :=
  ⟨fun a b => strLeAux_total a.data b.data⟩

instance : IsTrans String rStr :=
  ⟨fun _ _ _ h1 h2 => strLeAux_trans h1 h2⟩

instance : IsAntisymm String rStr :=
  ⟨fun a b h1 h2 => by
    have hd := strLeAux_antisymm h1 h2
    cases a; cases b
    simp only at hd
    rw [hd]⟩

/-! ## Topology builder lemmas -/

theorem alookup_spine {K : Type} [DecidableEq K] {α : Type} {k : K} {v : α}
    {l : List (K × α)} (h : alookup k l = some v) :
    ∃ l1 l2, l = l1 ++ (k, v) :: l2 ∧ (∀ x ∈ l1, x.1 ≠ k) ∧
      ∀ v', aupd k v' l = l1 ++ (k, v') :: l2 := by
  induction l with
  | nil => simp [alookup] at h
  | cons hd t ih =>
    by_cases hk : hd.1 = k
    · have h2 : hd.2 = v := by simpa [alookup, hk] using h
      refine ⟨[], t, ?_, by simp, ?_⟩
      · obtain ⟨a, bb⟩ := hd
        simp only at hk h2
        rw [hk, h2]
        simp
      · intro v'
        simp [aupd, hk]
    · obtain ⟨l1, l2, heq, hnk, hupd⟩ := ih (by simpa [alookup, hk] using h)
      refine ⟨hd :: l1, l2, by simp [heq], ?_, ?_⟩
      · intro x hx
        rcases (by simpa using hx : x = hd ∨ x ∈ l1) with h1 | h1
        · rw [h1]; exact hk
        · exact hnk x h1
      · intro v'
        simp [aupd, hk, hupd v']

theorem aupd_length_present {K : Type} [DecidableEq K] {α : Type} {k : K} {v0 : α}
    {l : List (K × α)} (h : alookup k l = some v0) (v : α) :
    (aupd k v l).length = l.length := by
  obtain ⟨l1, l2, hsplit, hl1k, hupd⟩ := alookup_spine h
  rw [hupd v, hsplit]
  simp

section InfraLemmas

variable (host upath : String → String) (b : Backend)

theorem getInfraScan_append (disks : List DiskRecord) (d : DiskRecord) :
    getInfraScan host upath b (disks ++ [d]) =
      getInfraStep host upath b (getInfraScan host upath b disks) d := by
  simp [getInfraScan, List.foldl_append]

theorem setInfoAt_step_self (st : InfraState) (d : DiskRecord) :
    setInfoAt (getInfraStep host upath b st d)
        (toString (d.PoolIndex + 1)) (toString (d.SetIndex + 1)) =
      some (
        let seti0 :=
          match setInfoAt st (toString (d.PoolIndex + 1)) (toString (d.SetIndex + 1)) with
          | some s => s
          | none =>
            { Disks := []
              SCParity := b.StandardSCParity
              RRSCParity := b.RRSCParity
              ID := d.SetIndex + 1
              Pool := d.PoolIndex + 1
              BadDisks := 0
              CanReboot := true }
        if d.State ≠ "ok" then { seti0 with BadDisks := seti0.BadDisks + 1 } else seti0) := by
  simp [setInfoAt, getInfraStep, alookup_aupd_self]

theorem setInfoAt_step_ne (st : InfraState) (d : DiskRecord) {PI SIs : String}
    (h : ¬ matchesPS d PI SIs) :
    setInfoAt (getInfraStep host upath b st d) PI SIs = setInfoAt st PI SIs := by
  by_cases hPI : toString (d.PoolIndex + 1) = PI
  · have hSI : toString (d.SetIndex + 1) ≠ SIs := by
      intro hh; exact h ⟨hPI, hh⟩
    simp [setInfoAt, getInfraStep, hPI, alookup_aupd_self, alookup_aupd_ne hSI]
  · simp [setInfoAt, getInfraStep, alookup_aupd_ne hPI]

theorem badCount_append (disks : List DiskRecord) (d : DiskRecord) (PI SIs : String) :
    badCount (disks ++ [d]) PI SIs =
      badCount disks PI SIs +
        (if matchesPS d PI SIs ∧ d.State ≠ "ok" then 1 else 0) := by
  unfold badCount
  rw [List.filter_append, List.length_append]
  by_cases h : matchesPS d PI SIs ∧ d.State ≠ "ok"
  · have hp : toString (d.PoolIndex + 1) = PI ∧ toString (d.SetIndex + 1) = SIs ∧
        d.State ≠ "ok" := ⟨h.1.1, h.1.2, h.2⟩
    simp [hp, h]
  · have hp : ¬ (toString (d.PoolIndex + 1) = PI ∧ toString (d.SetIndex + 1) = SIs ∧
        d.State ≠ "ok") := by
      intro ⟨a1, a2, a3⟩
      exact h ⟨⟨a1, a2⟩, a3⟩
    simp [hp, h]

theorem setInfo_spec (disks : List DiskRecord) (PI SIs : String) :
    ((setInfoAt (getInfraScan host upath b disks) PI SIs).isSome ↔
      ∃ d ∈ disks, matchesPS d PI SIs) ∧
    (∀ seti, setInfoAt (getInfraScan host upath b disks) PI SIs = some seti →
      seti.BadDisks = badCount disks PI SIs ∧ seti.SCParity = b.StandardSCParity) := by
  induction disks using List.reverseRecOn with
  | nil =>
    constructor
    · simp [getInfraScan, setInfoAt, alookup]
    · intro seti h
      simp [getInfraScan, setInfoAt, alookup] at h
  | append_singleton rs d ih =>
    rw [getInfraScan_append]
    by_cases hm : matchesPS d PI SIs
    · obtain ⟨h1, h2⟩ := hm
      subst h1
      subst h2
      rw [setInfoAt_step_self]
      have hmm : matchesPS d (toString (d.PoolIndex + 1)) (toString (d.SetIndex + 1)) :=
        ⟨rfl, rfl⟩
      have hbc := badCount_append rs d (toString (d.PoolIndex + 1)) (toString (d.SetIndex + 1))
      constructor
      · simp only [Option.isSome_some, true_iff]
        exact ⟨d, by simp, hmm⟩
      · intro seti hset
        have hseti := (Option.some.inj hset).symm
        clear hset
        cases hold : setInfoAt (getInfraScan host upath b rs)
            (toString (d.PoolIndex + 1)) (toString (d.SetIndex + 1)) with
        | some s0 =>
          have hfields := ih.2 s0 hold
          rw [hold] at hseti
          by_cases hst : d.State ≠ "ok"
          · rw [if_pos hst] at hseti
            rw [hseti]
            refine ⟨?_, hfields.2⟩
            rw [hbc]
            simp [hmm, hst, hfields.1]
          · rw [if_neg hst] at hseti
            rw [hseti]
            refine ⟨?_, hfields.2⟩
            rw [hbc]
            have : ¬ (matchesPS d (toString (d.PoolIndex + 1)) (toString (d.SetIndex + 1)) ∧
                d.State ≠ "ok") := fun hh => hst hh.2
            simp [this, hfields.1]
        | none =>
          have hnomatch : ¬ ∃ d' ∈ rs, matchesPS d'
              (toString (d.PoolIndex + 1)) (toString (d.SetIndex + 1)) := by
            intro hh
            have := ih.1.mpr hh
            rw [hold] at this
            simp at this
          have hbc0 : badCount rs (toString (d.PoolIndex + 1)) (toString (d.SetIndex + 1)) = 0 := by
            simp only [badCount, Int.natCast_eq_zero, List.length_eq_zero]
            rw [List.filter_eq_nil_iff]
            intro d' hd'
            simp only [decide_eq_true_eq, not_and]
            intro hh1 hh2 hh3
            exact hnomatch ⟨d', hd', hh1, hh2⟩
          rw [hold] at hseti
          by_cases hst : d.State ≠ "ok"
          · rw [if_pos hst] at hseti
            rw [hseti]
            refine ⟨?_, rfl⟩
            rw [hbc]
            simp [hmm, hst, hbc0]
          · rw [if_neg hst] at hseti
            rw [hseti]
            refine ⟨?_, rfl⟩
            rw [hbc]
            have : ¬ (matchesPS d (toString (d.PoolIndex + 1)) (toString (d.SetIndex + 1)) ∧
                d.State ≠ "ok") := fun hh => hst hh.2
            simp [this, hbc0]
    · rw [setInfoAt_step_ne host upath b _ _ hm]
      constructor
      · rw [ih.1]
        constructor
        · intro ⟨d', hd', hmd'⟩
          exact ⟨d', by simp [hd'], hmd'⟩
        · intro ⟨d', hd', hmd'⟩
          rcases (by simpa using hd') with h | h
          · exact ⟨d', h, hmd'⟩
          · rw [h] at hmd'
            exact absurd hmd' hm
      · intro seti hset
        have := ih.2 seti hset
        constructor
        · rw [this.1]
          rw [badCount_append]
          simp [hm]
        · exact this.2

theorem serverAt_step_self (st : InfraState) (d : DiskRecord) :
    serverAt (getInfraStep host upath b st d).pools
        (toString (d.PoolIndex + 1)) (host d.Endpoint) =
      some { baseServer host st d with
              Sets := aupd (d.SetIndex + 1)
                { baseSet host b st d with
                    Disks := aupd d.Endpoint (mkDisk upath d) (baseSet host b st d).Disks }
                (baseServer host st d).Sets } := by
  simp only [getInfraStep, serverAt, poolAt, baseServer, baseSet]
  rw [alookup_aupd_self]
  simp only [Option.getD_some]
  rw [alookup_aupd_self]
  cases hsv : alookup (host d.Endpoint)
      ((alookup (toString (d.PoolIndex + 1)) st.pools).getD { Servers := [] }).Servers <;>
    simp [hsv]

theorem serverAt_step_ne (st : InfraState) (d : DiskRecord) {PI h : String}
    (hne : ¬ (toString (d.PoolIndex + 1) = PI ∧ host d.Endpoint = h)) :
    serverAt (getInfraStep host upath b st d).pools PI h = serverAt st.pools PI h := by
  by_cases hPI : toString (d.PoolIndex + 1) = PI
  · have hh : host d.Endpoint ≠ h := fun hhh => hne ⟨hPI, hhh⟩
    simp only [getInfraStep, serverAt, poolAt]
    rw [hPI, alookup_aupd_self]
    simp only [Option.getD_some]
    rw [alookup_aupd_ne hh]
  · simp only [getInfraStep, serverAt, poolAt]
    rw [alookup_aupd_ne hPI]

theorem viewAt_step_self (st : InfraState) (d : DiskRecord) :
    viewAt (getInfraStep host upath b st d).pools
        (toString (d.PoolIndex + 1)) (host d.Endpoint) (d.SetIndex + 1) =
      some { baseSet host b st d with
              Disks := aupd d.Endpoint (mkDisk upath d) (baseSet host b st d).Disks } := by
  unfold viewAt
  rw [serverAt_step_self host upath b]
  simp only [Option.some_bind]
  rw [alookup_aupd_self]

theorem viewAt_step_ne (st : InfraState) (d : DiskRecord) {PI h : String} {SI : Int}
    (hne : ¬ matchesView host d PI h SI) :
    viewAt (getInfraStep host upath b st d).pools PI h SI = viewAt st.pools PI h SI := by
  by_cases hsv : toString (d.PoolIndex + 1) = PI ∧ host d.Endpoint = h
  · have hSI : d.SetIndex + 1 ≠ SI := fun hhh => hne ⟨hsv.1, hsv.2, hhh⟩
    obtain ⟨hP, hH⟩ := hsv
    subst hP
    subst hH
    unfold viewAt
    rw [serverAt_step_self host upath b st d]
    simp only [Option.some_bind]
    rw [alookup_aupd_ne hSI]
    unfold baseServer serverAt
    cases hb : alookup (host d.Endpoint)
        (poolAt st.pools (toString (d.PoolIndex + 1))).Servers <;> simp [hb, alookup]
  · unfold viewAt
    rw [serverAt_step_ne host upath b st d hsv]

theorem alookup_baseServer (st : InfraState) (d : DiskRecord) :
    alookup (d.SetIndex + 1) (baseServer host st d).Sets =
      viewAt st.pools (toString (d.PoolIndex + 1)) (host d.Endpoint) (d.SetIndex + 1) := by
  unfold baseServer viewAt
  cases hb : serverAt st.pools (toString (d.PoolIndex + 1)) (host d.Endpoint) <;>
    simp [hb, alookup]

theorem view_spec (disks : List DiskRecord) (PI h : String) (SI : Int) :
    ((viewAt (getInfraScan host upath b disks).pools PI h SI).isSome ↔
      ∃ d ∈ disks, matchesView host d PI h SI) ∧
    (∀ se, viewAt (getInfraScan host upath b disks).pools PI h SI = some se →
      se.SCParity = b.StandardSCParity ∧ toString se.Pool = PI ∧ se.ID = SI) := by
  induction disks using List.reverseRecOn with
  | nil =>
    constructor
    · simp [getInfraScan, viewAt, serverAt, poolAt, alookup]
    · intro se hse
      simp [getInfraScan, viewAt, serverAt, poolAt, alookup] at hse
  | append_singleton rs d ih =>
    rw [getInfraScan_append]
    by_cases hm : matchesView host d PI h SI
    · obtain ⟨h1, h2, h3⟩ := hm
      subst h1
      subst h2
      subst h3
      rw [viewAt_step_self host upath b]
      constructor
      · simp only [Option.isSome_some, true_iff]
        exact ⟨d, by simp, rfl, rfl, rfl⟩
      · intro se hse
        have hseq := (Option.some.inj hse).symm
        clear hse
        unfold baseSet at hseq
        rw [alookup_baseServer host] at hseq
        cases hold : viewAt (getInfraScan host upath b rs).pools
            (toString (d.PoolIndex + 1)) (host d.Endpoint) (d.SetIndex + 1) with
        | some s0 =>
          rw [hold] at hseq
          have hf := ih.2 s0 hold
          rw [hseq]
          exact ⟨hf.1, hf.2.1, hf.2.2⟩
        | none =>
          rw [hold] at hseq
          rw [hseq]
          exact ⟨rfl, rfl, rfl⟩
    · rw [viewAt_step_ne host upath b _ d hm]
      constructor
      · rw [ih.1]
        constructor
        · intro ⟨d', hd', hmd'⟩
          exact ⟨d', by simp [hd'], hmd'⟩
        · intro ⟨d', hd', hmd'⟩
          rcases (by simpa using hd') with hcase | hcase
          · exact ⟨d', hcase, hmd'⟩
          · rw [hcase] at hmd'
            exact absurd hmd' hm
      · exact ih.2

theorem server_spec (disks : List DiskRecord) (PI h : String) :
    ∀ sv, serverAt (getInfraScan host upath b disks).pools PI h = some sv →
      sv.Processed = false ∧ sv.Rebooted = false ∧ sv.Endpoint = h := by
  induction disks using List.reverseRecOn with
  | nil =>
    intro sv hsv
    simp [getInfraScan, serverAt, poolAt, alookup] at hsv
  | append_singleton rs d ih =>
    rw [getInfraScan_append]
    intro sv hsv
    by_cases hm : toString (d.PoolIndex + 1) = PI ∧ host d.Endpoint = h
    · obtain ⟨h1, h2⟩ := hm
      subst h1
      subst h2
      rw [serverAt_step_self host upath b] at hsv
      have hseq := (Option.some.inj hsv).symm
      unfold baseServer at hseq
      cases hold : serverAt (getInfraScan host upath b rs).pools
          (toString (d.PoolIndex + 1)) (host d.Endpoint) with
      | some s0 =>
        rw [hold] at hseq
        have hf := ih s0 hold
        rw [hseq]
        exact ⟨hf.1, hf.2.1, hf.2.2⟩
      | none =>
        rw [hold] at hseq
        rw [hseq]
        exact ⟨rfl, rfl, rfl⟩
    · rw [serverAt_step_ne host upath b _ d hm] at hsv
      exact ih sv hsv

theorem alookup_map_pair {K : Type} [DecidableEq K] {α β : Type}
    (f : K × α → β) (k : K) (l : List (K × α)) :
    alookup k (l.map (fun p => (p.1, f p))) = (alookup k l).map (fun v => f (k, v)) := by
  induction l with
  | nil => simp [alookup]
  | cons hd t ih =>
    obtain ⟨k1, v1⟩ := hd
    by_cases hk : k1 = k
    · subst hk
      simp [alookup]
    · simp [alookup, hk, ih]

theorem getInfra_fst (host upath : String → String) (b : Backend)
    (disks : List DiskRecord) :
    (getInfra host upath b disks).1 =
      getInfraFix (getInfraScan host upath b disks).setInfo
        (getInfraScan host upath b disks).pools := rfl

theorem getInfra_snd (host upath : String → String) (b : Backend)
    (disks : List DiskRecord) :
    (getInfra host upath b disks).2 = (getInfraScan host upath b disks).totalServers := rfl

theorem viewAt_getInfraFix (si : List (String × List (String × Set)))
    (pools : List (String × Pool)) (PI h : String) (SI : Int) :
    viewAt (getInfraFix si pools) PI h SI =
      (viewAt pools PI h SI).map (fun se =>
        match alookup (toString SI) ((alookup PI si).getD []) with
        | some seti =>
          { se with
              CanReboot := if seti.BadDisks ≥ seti.SCParity - 1 then false else true
              BadDisks := seti.BadDisks }
        | none => se) := by
  unfold getInfraFix viewAt serverAt poolAt
  rw [alookup_map_pair]
  cases hp : alookup PI pools with
  | none => simp [alookup]
  | some pool =>
    simp only [Option.map_some', Option.getD_some]
    rw [alookup_map_pair]
    cases hs : alookup h pool.Servers with
    | none => simp
    | some sv =>
      simp only [Option.map_some', Option.some_bind]
      rw [alookup_map_pair]

/-- What `getInfra` returns for a present set view: `SCParity` is the
backend parity, `BadDisks` is the global bad count of its `(pool, set)`
identity, `CanReboot` is derived from that count, and the pool/id tags
match the keys under which the view sits. -/
theorem view_final_spec (disks : List DiskRecord) (PI h : String) (SI : Int)
    (se : Set) (hse : viewAt (getInfra host upath b disks).1 PI h SI = some se) :
    se.SCParity = b.StandardSCParity ∧
    se.BadDisks = badCount disks PI (toString SI) ∧
    se.CanReboot =
      (if badCount disks PI (toString SI) ≥ b.StandardSCParity - 1 then false else true) ∧
    toString se.Pool = PI ∧ se.ID = SI := by
  rw [getInfra_fst, viewAt_getInfraFix] at hse
  cases h0 : viewAt (getInfraScan host upath b disks).pools PI h SI with
  | none => rw [h0] at hse; simp at hse
  | some se0 =>
    rw [h0] at hse
    simp only [Option.map_some', Option.some.injEq] at hse
    have hf0 := (view_spec host upath b disks PI h SI).2 se0 h0
    have hx : ∃ d ∈ disks, matchesView host d PI h SI :=
      (view_spec host upath b disks PI h SI).1.mp (by simp [h0])
    obtain ⟨d, hd, hm1, hm2, hm3⟩ := hx
    have hsi : ∃ d' ∈ disks, matchesPS d' PI (toString SI) :=
      ⟨d, hd, hm1, by rw [hm3]⟩
    have hsis := (setInfo_spec host upath b disks PI (toString SI)).1.mpr hsi
    cases hsival : setInfoAt (getInfraScan host upath b disks) PI (toString SI) with
    | none => rw [hsival] at hsis; simp at hsis
    | some seti =>
      have hsf := (setInfo_spec host upath b disks PI (toString SI)).2 seti hsival
      unfold setInfoAt at hsival
      rw [hsival] at hse
      rw [← hse]
      refine ⟨hf0.1, ?_, ?_, hf0.2.1, hf0.2.2⟩
      · simp [hsf.1]
      · simp [hsf.1, hsf.2]

/-- The pass-2 fixup keeps every view present and does not change the
`Disks` map of any view. -/
theorem viewAt_getInfra_isSome (disks : List DiskRecord) (PI h : String) (SI : Int) :
    (viewAt (getInfra host upath b disks).1 PI h SI).isSome ↔
      ∃ d ∈ disks, matchesView host d PI h SI := by
  have base := (view_spec host upath b disks PI h SI).1
  rw [getInfra_fst, viewAt_getInfraFix]
  cases h0 : viewAt (getInfraScan host upath b disks).pools PI h SI with
  | none => rw [h0] at base; simpa using base
  | some se0 => rw [h0] at base; simpa using base

theorem disksAt_getInfra (disks : List DiskRecord) (PI h : String) (SI : Int) :
    disksAt (getInfra host upath b disks).1 PI h SI =
      disksAt (getInfraScan host upath b disks).pools PI h SI := by
  unfold disksAt
  rw [getInfra_fst, viewAt_getInfraFix]
  cases h0 : viewAt (getInfraScan host upath b disks).pools PI h SI with
  | none => simp
  | some se0 =>
    simp only [Option.map_some', Option.getD_some]
    cases alookup (toString SI) ((alookup PI (getInfraScan host upath b disks).setInfo).getD []) <;>
      simp

/-- C10 core: the disk stored under endpoint key `e` in the view at
`(PI, h, SI)` is the image of the last input record of that view carrying
endpoint `e` (later records overwrite earlier ones). -/
theorem disks_last_spec (disks : List DiskRecord) (PI h : String) (SI : Int) (e : String) :
    alookup e (disksAt (getInfraScan host upath b disks).pools PI h SI) =
      ((disks.filter (fun d =>
        decide (matchesView host d PI h SI ∧ d.Endpoint = e))).getLast?).map
        (mkDisk upath) := by
  induction disks using List.reverseRecOn with
  | nil => simp [getInfraScan, disksAt, viewAt, serverAt, poolAt, alookup]
  | append_singleton rs d ih =>
    rw [getInfraScan_append, List.filter_append]
    by_cases hm : matchesView host d PI h SI
    · obtain ⟨h1, h2, h3⟩ := hm
      subst h1
      subst h2
      subst h3
      unfold disksAt
      rw [viewAt_step_self host upath b]
      simp only [Option.map_some', Option.getD_some]
      have hbase : (baseSet host b (getInfraScan host upath b rs) d).Disks =
          disksAt (getInfraScan host upath b rs).pools
            (toString (d.PoolIndex + 1)) (host d.Endpoint) (d.SetIndex + 1) := by
        unfold baseSet disksAt
        rw [alookup_baseServer host]
        cases viewAt (getInfraScan host upath b rs).pools
            (toString (d.PoolIndex + 1)) (host d.Endpoint) (d.SetIndex + 1) <;> simp
      by_cases he : d.Endpoint = e
      · subst he
        rw [alookup_aupd_self]
        have hfil : List.filter (fun d' =>
            decide (matchesView host d' (toString (d.PoolIndex + 1))
              (host d.Endpoint) (d.SetIndex + 1) ∧ d'.Endpoint = d.Endpoint)) [d] = [d] := by
          simp [matchesView]
        rw [hfil, List.getLast?_concat]
        simp
      · rw [alookup_aupd_ne he]
        rw [hbase, ih]
        have hfil : List.filter (fun d' =>
            decide (matchesView host d' (toString (d.PoolIndex + 1))
              (host d.Endpoint) (d.SetIndex + 1) ∧ d'.Endpoint = e)) [d] = [] := by
          simp [he]
        rw [hfil]
        simp
    · unfold disksAt
      rw [viewAt_step_ne host upath b _ d hm]
      have hfil : List.filter (fun d' =>
          decide (matchesView host d' PI h SI ∧ d'.Endpoint = e)) [d] = [] := by
        simp [hm]
      rw [hfil]
      simp only [List.append_nil]
      exact ih

/-! ### Structural facts of the built topology, feeding the scheduler -/

theorem server_with_sets_processed (s : Server) (l : List (Int × Set)) :
    ({ s with Sets := l } : Server).Processed = s.Processed := rfl

theorem server_with_sets_endpoint (s : Server) (l : List (Int × Set)) :
    ({ s with Sets := l } : Server).Endpoint = s.Endpoint := rfl

theorem set_with_disks_pool (se : Set) (l : List (String × Disk)) :
    ({ se with Disks := l } : Set).Pool = se.Pool := rfl

/-- The pools map written by one `getInfraStep`, expressed through
`poolAt`, `baseServer` and `baseSet`. -/
theorem getInfraStep_pools (st : InfraState) (d : DiskRecord) :
    (getInfraStep host upath b st d).pools =
      aupd (toString (d.PoolIndex + 1))
        { Servers := aupd (host d.Endpoint)
            { baseServer host st d with
                Sets := aupd (d.SetIndex + 1)
                  { baseSet host b st d with
                      Disks := aupd d.Endpoint (mkDisk upath d)
                        (baseSet host b st d).Disks }
                  (baseServer host st d).Sets }
            (poolAt st.pools (toString (d.PoolIndex + 1))).Servers }
        st.pools := by
  simp only [getInfraStep, poolAt, baseServer, baseSet, serverAt]
  cases hsv : alookup (host d.Endpoint)
      ((alookup (toString (d.PoolIndex + 1)) st.pools).getD { Servers := [] }).Servers <;>
    simp [hsv]

/-- The server total after one `getInfraStep`: unchanged when the host is
already present in its pool, otherwise incremented. -/
theorem getInfraStep_total (st : InfraState) (d : DiskRecord) :
    (getInfraStep host upath b st d).totalServers =
      (match alookup (host d.Endpoint)
          (poolAt st.pools (toString (d.PoolIndex + 1))).Servers with
        | some _ => st.totalServers
        | none => st.totalServers + 1) := by
  simp only [getInfraStep, poolAt]
  cases hsv : alookup (host d.Endpoint)
      ((alookup (toString (d.PoolIndex + 1)) st.pools).getD { Servers := [] }).Servers <;>
    simp [hsv]

/-- `baseServer` is unprocessed, keyed by its host name, and all its set
views are tagged with its pool key, provided the accumulated pools are. -/
theorem baseServer_ok (st : InfraState) (d : DiskRecord)
    (h : ∀ pp ∈ st.pools, ∀ sv ∈ pp.2.Servers,
      (∀ se ∈ sv.2.Sets, toString se.2.Pool = pp.1) ∧
      sv.2.Processed = false ∧ sv.2.Endpoint = sv.1) :
    (∀ se ∈ (baseServer host st d).Sets,
      toString se.2.Pool = toString (d.PoolIndex + 1)) ∧
    (baseServer host st d).Processed = false ∧
    (baseServer host st d).Endpoint = host d.Endpoint := by
  unfold baseServer serverAt poolAt
  cases hq : alookup (toString (d.PoolIndex + 1)) st.pools with
  | none =>
    simp only [hq, Option.getD_none]
    constructor
    · intro se hse
      simp [alookup] at hse
    · constructor <;> trivial
  | some p0 =>
    simp only [hq, Option.getD_some]
    cases hs : alookup (host d.Endpoint) p0.Servers with
    | none =>
      simp only [hs]
      constructor
      · intro se hse
        simp at hse
      · constructor <;> trivial
    | some s0 =>
      simp only [hs]
      have hmem : (host d.Endpoint, s0) ∈ p0.Servers := mem_of_alookup_eq_some hs
      have hp := h (toString (d.PoolIndex + 1), p0) (mem_of_alookup_eq_some hq)
        (host d.Endpoint, s0) hmem
      exact ⟨hp.1, hp.2.1, hp.2.2⟩

/-- The set view extended by a step carries the step's pool tag. -/
theorem baseSet_pool (st : InfraState) (d : DiskRecord)
    (h : ∀ pp ∈ st.pools, ∀ sv ∈ pp.2.Servers,
      (∀ se ∈ sv.2.Sets, toString se.2.Pool = pp.1) ∧
      sv.2.Processed = false ∧ sv.2.Endpoint = sv.1) :
    toString (baseSet host b st d).Pool = toString (d.PoolIndex + 1) := by
  unfold baseSet
  cases hb : alookup (d.SetIndex + 1) (baseServer host st d).Sets with
  | none => simp [hb]
  | some s0 =>
    simp only [hb]
    exact (baseServer_ok host st d h).1 (d.SetIndex + 1, s0)
      (mem_of_alookup_eq_some hb)

/-- One `getInfraStep` preserves the structural facts: tags, unprocessed
servers, endpoint keys, and the server count. -/
theorem getInfraStep_ok (st : InfraState) (d : DiskRecord)
    (h : (∀ pp ∈ st.pools, ∀ sv ∈ pp.2.Servers,
        (∀ se ∈ sv.2.Sets, toString se.2.Pool = pp.1) ∧
        sv.2.Processed = false ∧ sv.2.Endpoint = sv.1) ∧
      st.totalServers = (numServers st.pools : Int)) :
    (∀ pp ∈ (getInfraStep host upath b st d).pools, ∀ sv ∈ pp.2.Servers,
        (∀ se ∈ sv.2.Sets, toString se.2.Pool = pp.1) ∧
        sv.2.Processed = false ∧ sv.2.Endpoint = sv.1) ∧
      (getInfraStep host upath b st d).totalServers =
        (numServers (getInfraStep host upath b st d).pools : Int) := by
  obtain ⟨hmem, htot⟩ := h
  have hpoolmem : ∀ sv ∈ (poolAt st.pools (toString (d.PoolIndex + 1))).Servers,
      (∀ se ∈ sv.2.Sets, toString se.2.Pool = toString (d.PoolIndex + 1)) ∧
      sv.2.Processed = false ∧ sv.2.Endpoint = sv.1 := by
    intro sv hsv
    unfold poolAt at hsv
    cases hq : alookup (toString (d.PoolIndex + 1)) st.pools with
    | none => rw [hq] at hsv; simp at hsv
    | some p0 =>
      rw [hq] at hsv
      exact hmem (toString (d.PoolIndex + 1), p0) (mem_of_alookup_eq_some hq) sv hsv
  obtain ⟨hbtag, hbproc, hbend⟩ := baseServer_ok host st d hmem
  constructor
  · rw [getInfraStep_pools host upath b st d]
    intro pp hpp
    rcases mem_aupd hpp with h1 | h1
    · rw [h1]
      intro sv hsv
      rcases mem_aupd hsv with h2 | h2
      · rw [h2]
        refine ⟨?_, ?_, ?_⟩
        · intro se hse
          rw [server_with_sets_processed, server_with_sets_endpoint] at *
          rcases mem_aupd hse with h3 | h3
          · rw [h3]
            rw [set_with_disks_pool]
            exact baseSet_pool host b st d hmem
          · exact hbtag se h3
        · rw [server_with_sets_processed]
          exact hbproc
        · rw [server_with_sets_endpoint]
          exact hbend
      · exact hpoolmem sv h2
    · exact hmem pp h1
  · rw [getInfraStep_total host upath b st d, getInfraStep_pools host upath b st d]
    cases hsv : alookup (host d.Endpoint)
        (poolAt st.pools (toString (d.PoolIndex + 1))).Servers with
    | some s0 =>
      have h2 : numServers (aupd (toString (d.PoolIndex + 1))
            { Servers := aupd (host d.Endpoint)
                  { baseServer host st d with
                    Sets := aupd (d.SetIndex + 1)
                      { baseSet host b st d with
                          Disks := aupd d.Endpoint (mkDisk upath d)
                            (baseSet host b st d).Disks }
                      (baseServer host st d).Sets }
                  (poolAt st.pools (toString (d.PoolIndex + 1))).Servers }
            st.pools) +
            (poolAt st.pools (toString (d.PoolIndex + 1))).Servers.length =
          numServers st.pools +
            (aupd (host d.Endpoint)
              { baseServer host st d with
                    Sets := aupd (d.SetIndex + 1)
                      { baseSet host b st d with
                          Disks := aupd d.Endpoint (mkDisk upath d)
                            (baseSet host b st d).Disks }
                      (baseServer host st d).Sets }
              (poolAt st.pools (toString (d.PoolIndex + 1))).Servers).length :=
        numServers_aupd st.pools _ _
      rw [aupd_length_present hsv] at h2
      show st.totalServers = (numServers (aupd (toString (d.PoolIndex + 1))
            { Servers := aupd (host d.Endpoint)
                  { baseServer host st d with
                    Sets := aupd (d.SetIndex + 1)
                      { baseSet host b st d with
                          Disks := aupd d.Endpoint (mkDisk upath d)
                            (baseSet host b st d).Disks }
                      (baseServer host st d).Sets }
                  (poolAt st.pools (toString (d.PoolIndex + 1))).Servers }
            st.pools) : Int)
      omega
    | none =>
      have hnot : host d.Endpoint ∉
          keysOf (poolAt st.pools (toString (d.PoolIndex + 1))).Servers := by
        intro hk
        have := alookup_isSome_iff_mem_keys.mpr hk
        rw [hsv] at this
        simp at this
      have h2 : numServers (aupd (toString (d.PoolIndex + 1))
            { Servers := aupd (host d.Endpoint)
                  { baseServer host st d with
                    Sets := aupd (d.SetIndex + 1)
                      { baseSet host b st d with
                          Disks := aupd d.Endpoint (mkDisk upath d)
                            (baseSet host b st d).Disks }
                      (baseServer host st d).Sets }
                  (poolAt st.pools (toString (d.PoolIndex + 1))).Servers }
            st.pools) +
            (poolAt st.pools (toString (d.PoolIndex + 1))).Servers.length =
          numServers st.pools +
            (aupd (host d.Endpoint)
              { baseServer host st d with
                    Sets := aupd (d.SetIndex + 1)
                      { baseSet host b st d with
                          Disks := aupd d.Endpoint (mkDisk upath d)
                            (baseSet host b st d).Disks }
                      (baseServer host st d).Sets }
              (poolAt st.pools (toString (d.PoolIndex + 1))).Servers).length :=
        numServers_aupd st.pools _ _
      show st.totalServers + 1 = (numServers (aupd (toString (d.PoolIndex + 1))
            { Servers := aupd (host d.Endpoint)
                  { baseServer host st d with
                    Sets := aupd (d.SetIndex + 1)
                      { baseSet host b st d with
                          Disks := aupd d.Endpoint (mkDisk upath d)
                            (baseSet host b st d).Disks }
                      (baseServer host st d).Sets }
                  (poolAt st.pools (toString (d.PoolIndex + 1))).Servers }
            st.pools) : Int)
      rw [aupd_of_not_mem hnot]
      rw [aupd_of_not_mem hnot] at h2
      simp only [List.length_append, List.length_cons, List.length_nil] at h2
      simp only []
      omega

/-- The first pass establishes the structural facts from the empty state. -/
theorem getInfraScan_ok (disks : List DiskRecord) :
    (∀ pp ∈ (getInfraScan host upath b disks).pools, ∀ sv ∈ pp.2.Servers,
        (∀ se ∈ sv.2.Sets, toString se.2.Pool = pp.1) ∧
        sv.2.Processed = false ∧ sv.2.Endpoint = sv.1) ∧
      (getInfraScan host upath b disks).totalServers =
        (numServers (getInfraScan host upath b disks).pools : Int) := by
  unfold getInfraScan
  refine foldl_preserve (fun st =>
      (∀ pp ∈ st.pools, ∀ sv ∈ pp.2.Servers,
        (∀ se ∈ sv.2.Sets, toString se.2.Pool = pp.1) ∧
        sv.2.Processed = false ∧ sv.2.Endpoint = sv.1) ∧
      st.totalServers = (numServers st.pools : Int))
    (getInfraStep host upath b)
    (fun st d hst => getInfraStep_ok host upath b st d hst) disks _ ⟨?_, ?_⟩
  · intro pp hpp
    simp at hpp
  · simp [numServers]

/-- The second pass keeps the server count of every pool. -/
theorem numServers_getInfraFix (si : List (String × List (String × Set)))
    (pools : List (String × Pool)) :
    numServers (getInfraFix si pools) = numServers pools := by
  induction pools with
  | nil => rfl
  | cons hd t ih =>
    unfold getInfraFix at *
    unfold numServers at *
    simp only [List.map_cons, List.sum_cons, List.length_map]
    rw [ih]

/-- The second pass preserves tags, unprocessed servers and endpoint
keys: it rewrites only `CanReboot` and `BadDisks` inside the set views. -/
theorem getInfraFix_ok (si : List (String × List (String × Set)))
    (pools : List (String × Pool))
    (h : ∀ pp ∈ pools, ∀ sv ∈ pp.2.Servers,
      (∀ se ∈ sv.2.Sets, toString se.2.Pool = pp.1) ∧
      sv.2.Processed = false ∧ sv.2.Endpoint = sv.1) :
    ∀ pp ∈ getInfraFix si pools, ∀ sv ∈ pp.2.Servers,
      (∀ se ∈ sv.2.Sets, toString se.2.Pool = pp.1) ∧
      sv.2.Processed = false ∧ sv.2.Endpoint = sv.1 := by
  intro pp hpp
  unfold getInfraFix at hpp
  rcases List.mem_map.mp hpp with ⟨p0, hp0, hfp⟩
  rw [← hfp]
  intro sv hsv
  simp only at hsv
  rcases List.mem_map.mp hsv with ⟨sv0, hsv0, hg⟩
  rw [← hg]
  obtain ⟨h0tag, h0proc, h0end⟩ := h p0 hp0 sv0 hsv0
  refine ⟨?_, ?_, ?_⟩
  · intro se hse
    rw [server_with_sets_processed, server_with_sets_endpoint] at *
    simp only [server_with_sets_endpoint] at hse
    rcases List.mem_map.mp ((by exact hse) :
        se ∈ sv0.2.Sets.map (fun se0 =>
          (se0.1,
            match alookup (toString se0.1) ((alookup p0.1 si).getD []) with
            | some seti =>
              { se0.2 with
                CanReboot := if seti.BadDisks ≥ seti.SCParity - 1 then false else true
                BadDisks := seti.BadDisks }
            | none => se0.2))) with ⟨se0, hse0, hh⟩
    rw [← hh]
    have htag0 := h0tag se0 hse0
    cases halk : alookup (toString se0.1) ((alookup p0.1 si).getD []) with
    | none => simpa [halk] using htag0
    | some seti => simpa [halk] using htag0
  · simpa using h0proc
  · simpa using h0end

/-- The topology produced by `getInfra` satisfies all the structural
facts the scheduler's invariant needs at its start state. -/
theorem getInfra_structure (disks : List DiskRecord) :
    (∀ pp ∈ (getInfra host upath b disks).1, ∀ sv ∈ pp.2.Servers,
        (∀ se ∈ sv.2.Sets, toString se.2.Pool = pp.1) ∧
        sv.2.Processed = false ∧ sv.2.Endpoint = sv.1) ∧
      (getInfra host upath b disks).2 =
        (numServers (getInfra host upath b disks).1 : Int) := by
  obtain ⟨h1, h2⟩ := getInfraScan_ok host upath b disks
  constructor
  · rw [getInfra_fst]
    exact getInfraFix_ok _ _ h1
  · rw [getInfra_fst, getInfra_snd, numServers_getInfraFix]
    exact h2

end InfraLemmas

/-! ## Heal orchestrator lemmas -/

theorem healSetPollWrites_keys (p s : Int) (polls : List (Option HealBatch)) :
    ∀ w ∈ (healSetPollWrites p s polls).1, w.1 = healSetMapKey p s := by
  induction polls with
  | nil => simp [healSetPollWrites]
  | cons hd t ih =>
    cases hd with
    | none => simp [healSetPollWrites]
    | some bb =>
      by_cases hdone : batchDone bb = true
      · simp [healSetPollWrites, hdone]
      · intro w hw
        simp only [healSetPollWrites, hdone, if_false, Bool.false_eq_true] at hw
        rcases (by simpa using hw :
            w = (healSetMapKey p s, batchInvalid bb) ∨
              w ∈ (healSetPollWrites p s t).1) with h1 | h1
        · rw [h1]
        · exact ih w h1

theorem healSetWrites_keys (p s : Int) (ok : Bool) (polls : List (Option HealBatch)) :
    ∀ w ∈ (healSetWrites p s ok polls).1, w.1 = healSetMapKey p s := by
  cases ok
  · simp [healSetWrites]
  · simp only [healSetWrites, if_true]
    exact healSetPollWrites_keys p s polls

theorem applyWrites_other_key {ws : List (String × Int)} {k0 : String}
    (hws : ∀ w ∈ ws, w.1 = k0) {k : String} (hk : k ≠ k0) :
    ∀ m : List (String × Int), alookup k (applyWrites m ws) = alookup k m := by
  induction ws with
  | nil => intro m; rfl
  | cons w t ih =>
    intro m
    have hw : w.1 = k0 := hws w (by simp)
    have ht : ∀ w' ∈ t, w'.1 = k0 := fun w' hw' => hws w' (by simp [hw'])
    have hstep : applyWrites m (w :: t) = applyWrites (aupd w.1 w.2 m) t := rfl
    rw [hstep, ih ht]
    apply alookup_aupd_ne
    rw [hw]
    exact fun hh => hk hh.symm

theorem healSetPollWrites_getLast (p s : Int) (polls : List (Option HealBatch))
    (ht : (healSetPollWrites p s polls).2 = true) :
    (healSetPollWrites p s polls).1.getLast? = some (healSetMapKey p s, 0) := by
  induction polls with
  | nil => simp [healSetPollWrites] at ht
  | cons hd t ih =>
    cases hd with
    | none => simp [healSetPollWrites]
    | some bb =>
      by_cases hdone : batchDone bb = true
      · simp [healSetPollWrites, hdone]
      · simp only [healSetPollWrites, hdone, if_false, Bool.false_eq_true] at ht ⊢
        have hlast := ih ht
        cases hw : (healSetPollWrites p s t).1 with
        | nil => rw [hw] at hlast; simp at hlast
        | cons a l =>
          rw [hw] at hlast
          rw [List.getLast?_cons_cons]
          exact hlast

theorem aggSum_lower :
    ∀ (m : List (String × Int)) (a : Int), (∀ kv ∈ m, 0 ≤ kv.2) →
      a ≤ m.foldl (fun acc kv => acc + kv.2) a := by
  intro m
  induction m with
  | nil => intro a _; simp
  | cons kv t ih =>
    intro a hpos
    have h1 : 0 ≤ kv.2 := hpos kv (by simp)
    have ht : ∀ kv' ∈ t, 0 ≤ kv'.2 := fun kv' hh => hpos kv' (by simp [hh])
    have h2 := ih (a + kv.2) ht
    simp only [List.foldl_cons]
    omega

theorem aggDone_false_of_pos (m : List (String × Int))
    (hpos : ∀ kv ∈ m, 0 ≤ kv.2) (hex : ∃ kv ∈ m, 0 < kv.2) :
    aggDone m = false := by
  obtain ⟨kv, hmem, hkv⟩ := hex
  obtain ⟨s1, t1, rfl⟩ := List.append_of_mem hmem
  have hs1 : ∀ kv' ∈ s1, 0 ≤ kv'.2 := fun kv' hh => hpos kv' (by simp [hh])
  have ht1 : ∀ kv' ∈ t1, 0 ≤ kv'.2 := fun kv' hh => hpos kv' (by simp [hh])
  have h1 : (0 : Int) ≤ s1.foldl (fun acc bv => acc + bv.2) 0 := aggSum_lower s1 0 hs1
  have h2 := aggSum_lower t1 (s1.foldl (fun acc bv => acc + bv.2) 0 + kv.2) ht1
  simp only [aggDone, aggSum, List.foldl_append, List.foldl_cons,
    decide_eq_false_iff_not]
  omega

/-! ## Claim theorems: heal orchestrator -/

/-- Claim C6 (code bug): the progress-map key the monitor for
`(poolIndex, setIndex) = (0, 1)` writes under is built from the pool index
twice — `fmt.Sprintf("%d/%d", poolIndex, poolIndex)` gives `"0/0"` — while
`heal` registers that unit under `"0/1"`; a poll therefore updates a key
that is not the unit's own. -/
theorem heal_key_mismatch :
    healSetMapKey 0 1 = "0/0" ∧ healRegKey 1 2 = "0/1" ∧
    healSetMapKey 0 1 ≠ healRegKey 1 2 ∧
    (healSetWrites 0 1 true
      [some { Items := [{ mb := 0, ma := 1, cb := 0, ca := 0, ob := 0, oa := 0 }] }]).1 =
      [("0/0", 1)] := by decide

/-- Claim C8 counterexample: the unit `(pool 0, set 0)` is registered at
count 1; its monitor's initial heal call errors; the deferred cleanup then
writes 0 under `"0/0"`, so the unit's entry is cleared — not frozen at a
non-zero count — and the aggregator declares success despite the error. -/
theorem heal_error_freeze_cex :
    alookup "0/0" (applyWrites (applyWrites [] [(healRegKey 1 1, 1)])
        (healSetWrites 0 0 false []).1) = some 0 ∧
    aggDone (applyWrites (applyWrites [] [(healRegKey 1 1, 1)])
        (healSetWrites 0 0 false []).1) = true := by decide

/-- Claim C8 amended: every write of a monitor — the per-poll progress
writes and the deferred cleanup 0 — goes to the `pool/pool` key, so any
key other than `pool/pool` (in particular the unit's registered `pool/set`
key when set ≠ pool) is never touched and stays frozen at its registered
count; a monitor that returns leaves 0 as its final write; and a map
holding a positive count among non-negative counts keeps the aggregator
from declaring success. -/
theorem heal_error_freeze_amended :
    ∀ (p s : Int) (startOk : Bool) (polls : List (Option HealBatch)),
      (∀ w ∈ (healSetWrites p s startOk polls).1, w.1 = healSetMapKey p s) ∧
      (∀ k : String, k ≠ healSetMapKey p s → ∀ m : List (String × Int),
        alookup k (applyWrites m (healSetWrites p s startOk polls).1) = alookup k m) ∧
      ((healSetWrites p s startOk polls).2 = true →
        (healSetWrites p s startOk polls).1.getLast? = some (healSetMapKey p s, 0)) ∧
      (∀ m : List (String × Int), (∀ kv ∈ m, 0 ≤ kv.2) → (∃ kv ∈ m, 0 < kv.2) →
        aggDone m = false) := by
  intro p s startOk polls
  refine ⟨healSetWrites_keys p s startOk polls, ?_, ?_, aggDone_false_of_pos⟩
  · intro k hk m
    exact applyWrites_other_key (healSetWrites_keys p s startOk polls) hk m
  · intro ht
    cases startOk
    · simp [healSetWrites] at ht ⊢
    · simp only [healSetWrites, if_true] at ht ⊢
      exact healSetPollWrites_getLast p s polls ht

/-- Witness for the amended C8: the crashed monitor of unit `(0, 1)` never
touches the registered key `"0/1"`, which stays at 1, and the aggregator
does not declare success on that map. -/
theorem heal_error_freeze_amended_witness :
    alookup "0/1" (applyWrites [("0/1", 1)] (healSetWrites 0 1 false []).1) = some 1 ∧
    aggDone [("0/1", 1)] = false := by
  constructor
  · have h := (heal_error_freeze_amended 0 1 false []).2.1 "0/1" (by decide) [("0/1", 1)]
    rw [h]
    decide
  · exact (heal_error_freeze_amended 0 1 false []).2.2.2 [("0/1", 1)]
      (by decide) ⟨("0/1", 1), by decide, by decide⟩

/-- Claim C5 counterexample: on a pool with two servers neither of which
matches the configured endpoint, `heal` starts no monitor at all, although
the topology has `(pool, set)` pairs. -/
theorem heal_coverage_cex :
    healStarts "zzz" (getInfra exHost exPath bpar rsShared).1 = [] ∧
    (viewAt (getInfra exHost exPath bpar rsShared).1 "1" "a" 1).isSome = true := by decide

/-- Claim C5 amended: a monitor for `(p, s)` is started (with its unit
registered in the same iteration) exactly when some pool whose key parses
to `p + 1` has a server that either matches the configured endpoint or is
alone in its pool, with `s + 1` among its set ids; each started monitor
issues heal calls that are recursive deep scans and not dry runs. -/
theorem heal_coverage_amended :
    ∀ (ep : String) (pools : List (String × Pool)) (p s : Int),
      ((p, s) ∈ healStarts ep pools ↔
        ∃ pkey v skey sv, alookup pkey pools = some v ∧ atoi pkey = some (p + 1) ∧
          alookup skey v.Servers = some sv ∧
          (ep = sv.Endpoint ∨ v.Servers.length = 1) ∧ (s + 1) ∈ keysOf sv.Sets) ∧
      ((healSetOpts p s).DryRun = false ∧ (healSetOpts p s).Recursive = true ∧
        (healSetOpts p s).ScanMode = 1 ∧ (healSetOpts p s).Pool = p ∧
        (healSetOpts p s).Set = s) := by
  intro ep pools p s
  refine ⟨?_, rfl, rfl, rfl, rfl, rfl⟩
  unfold healStarts
  rw [List.mem_flatMap]
  constructor
  · intro ⟨pkey, hpkey, hmem⟩
    cases hv : alookup pkey pools with
    | none => rw [hv] at hmem; simp at hmem
    | some v =>
      cases ha : atoi pkey with
      | none => rw [hv, ha] at hmem; simp at hmem
      | some poolIndex =>
        rw [hv, ha] at hmem
        simp only at hmem
        rw [List.mem_flatMap] at hmem
        obtain ⟨skey, hskey, hmem2⟩ := hmem
        cases hsv : alookup skey v.Servers with
        | none => rw [hsv] at hmem2; simp at hmem2
        | some sv =>
          rw [hsv] at hmem2
          simp only at hmem2
          by_cases hcond : ep = sv.Endpoint ∨ v.Servers.length = 1
          · rw [if_pos hcond] at hmem2
            rw [List.mem_map] at hmem2
            obtain ⟨si, hsi, hpair⟩ := hmem2
            rw [List.mem_insertionSort] at hsi
            have hps : poolIndex - 1 = p ∧ si - 1 = s := by
              constructor
              · exact congrArg Prod.fst hpair
              · exact congrArg Prod.snd hpair
            refine ⟨pkey, v, skey, sv, hv, ?_, hsv, hcond, ?_⟩
            · rw [ha]
              congr 1
              omega
            · have : si = s + 1 := by omega
              rw [← this]
              exact hsi
          · rw [if_neg hcond] at hmem2
            simp at hmem2
  · intro ⟨pkey, v, skey, sv, hv, ha, hsv, hcond, hsid⟩
    refine ⟨pkey, ?_, ?_⟩
    · unfold stringKeysSorted
      rw [List.mem_insertionSort]
      exact alookup_isSome_iff_mem_keys.mp (by simp [hv])
    · rw [hv, ha]
      simp only
      rw [List.mem_flatMap]
      refine ⟨skey, ?_, ?_⟩
      · unfold serverKeysSorted
        rw [List.mem_insertionSort]
        exact alookup_isSome_iff_mem_keys.mp (by simp [hsv])
      · rw [hsv]
        simp only
        rw [if_pos hcond]
        rw [List.mem_map]
        refine ⟨s + 1, ?_, ?_⟩
        · rw [List.mem_insertionSort]
          exact hsid
        · have h1 : p + 1 - 1 = p := by omega
          have h2 : s + 1 - 1 = s := by omega
          rw [h1, h2]

/-- Witness for the amended C5: on the shared-set topology with endpoint
`"a"`, the monitor `(0, 0)` is started, and the characterization produces
the matching pool, server and set id. -/
theorem heal_coverage_amended_witness :
    ∃ pkey v skey sv,
      alookup pkey (getInfra exHost exPath bpar rsShared).1 = some v ∧
      atoi pkey = some ((0 : Int) + 1) ∧
      alookup skey v.Servers = some sv ∧
      ("a" = sv.Endpoint ∨ v.Servers.length = 1) ∧
      ((0 : Int) + 1) ∈ keysOf sv.Sets := by
  exact (heal_coverage_amended "a" (getInfra exHost exPath bpar rsShared).1 0 0).1.mp
    (by decide)

/-! ## Scheduler lemmas -/

section SchedLemmas




theorem haveMatchingSets_iff {s1 s2 : Server} :
    haveMatchingSets s1 s2 = true ↔
      ∃ sid, sid ∈ keysOf s1.Sets ∧ sid ∈ keysOf s2.Sets := by
  unfold haveMatchingSets
  rw [List.any_eq_true]
  constructor
  · intro ⟨kv, hkv, hsome⟩
    refine ⟨kv.1, ?_, ?_⟩
    · exact List.mem_map_of_mem Prod.fst hkv
    · exact alookup_isSome_iff_mem_keys.mp hsome
  · intro ⟨sid, h1, h2⟩
    obtain ⟨kv, hkv, hfst⟩ := List.mem_map.mp h1
    refine ⟨kv, hkv, ?_⟩
    rw [hfst]
    exact alookup_isSome_iff_mem_keys.mpr h2

theorem haveMatchingSets_symm_false {s1 s2 : Server}
    (h : haveMatchingSets s1 s2 = false) : haveMatchingSets s2 s1 = false := by
  cases h2 : haveMatchingSets s2 s1 with
  | false => rfl
  | true =>
    obtain ⟨sid, ha, hb⟩ := haveMatchingSets_iff.mp h2
    have : haveMatchingSets s1 s2 = true := haveMatchingSets_iff.mpr ⟨sid, hb, ha⟩
    rw [this] at h
    exact absurd h (by simp)

theorem sharesErasureSet_of_matching {s1 s2 : Server}
    (h : sharesErasureSet s1 s2) : haveMatchingSets s1 s2 = true := by
  obtain ⟨sid, st1, st2, h1, h2, _⟩ := h
  exact haveMatchingSets_iff.mpr
    ⟨sid, alookup_isSome_iff_mem_keys.mp (by simp [h1]),
      alookup_isSome_iff_mem_keys.mp (by simp [h2])⟩

theorem areAllSetsOK_markProcessed (s : Server) :
    areAllSetsOK { s with Processed := true } = areAllSetsOK s := rfl

theorem haveMatchingSets_markProcessed_right (s1 s : Server) :
    haveMatchingSets s1 { s with Processed := true } = haveMatchingSets s1 s := rfl

theorem haveMatchingSets_markProcessed_left (s s2 : Server) :
    haveMatchingSets { s with Processed := true } s2 = haveMatchingSets s s2 := rfl

theorem bucketAt_withBucket_self (st : SchedState) (i : Nat) (pkey : String)
    (bucket : List (String × Server)) :
    bucketAt (withBucket st i pkey bucket) i pkey = bucket := by
  unfold bucketAt withBucket
  simp only
  rw [alookup_aupd_self]
  simp only [Option.getD_some]
  rw [alookup_aupd_self]
  rfl

theorem bucketAt_withBucket_ne (st : SchedState) {i j : Nat} {pkey qkey : String}
    (bucket : List (String × Server)) (h : ¬ (j = i ∧ qkey = pkey)) :
    bucketAt (withBucket st i pkey bucket) j qkey = bucketAt st j qkey := by
  unfold bucketAt withBucket
  simp only
  by_cases hj : i = j
  · subst hj
    have hq : pkey ≠ qkey := fun hh => h ⟨rfl, hh.symm⟩
    rw [alookup_aupd_self]
    simp only [Option.getD_some]
    rw [alookup_aupd_ne hq]
  · rw [alookup_aupd_ne hj]

theorem bucketAt_withBucket_same (st : SchedState) (i : Nat) (pkey : String) :
    ∀ j qkey, bucketAt (withBucket st i pkey (bucketAt st i pkey)) j qkey =
      bucketAt st j qkey := by
  intro j qkey
  by_cases h : j = i ∧ qkey = pkey
  · obtain ⟨h1, h2⟩ := h
    subst h1
    subst h2
    exact bucketAt_withBucket_self st j qkey (bucketAt st j qkey)
  · exact bucketAt_withBucket_ne st (bucketAt st i pkey) h

theorem withBucket_pools (st : SchedState) (i : Nat) (pkey : String)
    (bucket : List (String × Server)) :
    (withBucket st i pkey bucket).pools = st.pools := rfl

theorem withBucket_unhealthy (st : SchedState) (i : Nat) (pkey : String)
    (bucket : List (String × Server)) :
    (withBucket st i pkey bucket).unhealthy = st.unhealthy := rfl

theorem withBucket_processed (st : SchedState) (i : Nat) (pkey : String)
    (bucket : List (String × Server)) :
    (withBucket st i pkey bucket).processed = st.processed := rfl

theorem withBucket_totalServers (st : SchedState) (i : Nat) (pkey : String)
    (bucket : List (String × Server)) :
    (withBucket st i pkey bucket).totalServers = st.totalServers := rfl

/-- `SchedInv` only looks at `rounds` through `bucketAt` and ignores
`early`. -/
theorem SchedInv_congr {st1 st2 : SchedState}
    (hp : st1.pools = st2.pools)
    (hb : ∀ i pkey, bucketAt st1 i pkey = bucketAt st2 i pkey)
    (hu : st1.unhealthy = st2.unhealthy)
    (hproc : st1.processed = st2.processed)
    (htot : st1.totalServers = st2.totalServers)
    (h : SchedInv st1) : SchedInv st2 := by
  obtain ⟨⟨ht1, ht2⟩, hsafe, helig, hplaced, hproc2, hend, hfail1, hfail2, honce, hc1, hc2⟩ := h
  refine ⟨⟨hp ▸ ht1, fun i pkey => hb i pkey ▸ ht2 i pkey⟩,
    fun i pkey => hb i pkey ▸ hsafe i pkey,
    fun i pkey sv hsv => helig i pkey sv (hb i pkey ▸ hsv),
    fun i pkey e s hs => hp ▸ hplaced i pkey e s (hb i pkey ▸ hs),
    fun pkey sv hsv => hproc2 pkey sv (hp ▸ hsv),
    fun pkey sv hsv => hend pkey sv (hp ▸ hsv),
    fun e s hs => hfail1 e s (hu ▸ hs),
    fun e s hs => hp ▸ hfail2 e s (hu ▸ hs),
    fun pkey e i j h1 h2 => honce pkey e i j (hb i pkey ▸ h1) (hb j pkey ▸ h2),
    hproc ▸ hp ▸ hc1, htot ▸ hp ▸ hc2⟩

theorem pool_with_servers (p : Pool) (l : List (String × Server)) :
    ({ p with Servers := l } : Pool).Servers = l := rfl

theorem doServer_none {pkey skey : String} {st : SchedState}
    {bucket : List (String × Server)}
    (h : alookup skey ((alookup pkey st.pools).getD { Servers := [] }).Servers = none) :
    doServer pkey (st, bucket) skey = (st, bucket) := by
  unfold doServer
  simp only [h]

theorem doServer_processed {pkey skey : String} {st : SchedState}
    {bucket : List (String × Server)} {s : Server}
    (hs : alookup skey ((alookup pkey st.pools).getD { Servers := [] }).Servers = some s)
    (hp : s.Processed = true) :
    doServer pkey (st, bucket) skey = (st, bucket) := by
  unfold doServer
  simp only [hs, hp, if_true]

theorem doServer_unhealthy {pkey skey : String} {st : SchedState}
    {bucket : List (String × Server)} {s : Server}
    (hs : alookup skey ((alookup pkey st.pools).getD { Servers := [] }).Servers = some s)
    (hp : s.Processed = false) (he : areAllSetsOK s = false) :
    doServer pkey (st, bucket) skey =
      ({ st with unhealthy := aupd s.Endpoint s st.unhealthy }, bucket) := by
  unfold doServer
  simp only [hs, hp, he]
  simp

theorem doServer_inbucket {pkey skey : String} {st : SchedState}
    {bucket : List (String × Server)} {s x : Server}
    (hs : alookup skey ((alookup pkey st.pools).getD { Servers := [] }).Servers = some s)
    (hp : s.Processed = false) (he : areAllSetsOK s = true)
    (hb : alookup s.Endpoint bucket = some x) :
    doServer pkey (st, bucket) skey = (st, bucket) := by
  unfold doServer
  simp only [hs, hp, he, hb]
  simp

theorem doServer_conflict {pkey skey : String} {st : SchedState}
    {bucket : List (String × Server)} {s : Server}
    (hs : alookup skey ((alookup pkey st.pools).getD { Servers := [] }).Servers = some s)
    (hp : s.Processed = false) (he : areAllSetsOK s = true)
    (hb : alookup s.Endpoint bucket = none)
    (hc : bucket.any (fun rv => haveMatchingSets rv.2 s) = true) :
    doServer pkey (st, bucket) skey = (st, bucket) := by
  unfold doServer
  simp only [hs, hp, he, hb, hc]
  simp

theorem doServer_place {pkey skey : String} {st : SchedState}
    {bucket : List (String × Server)} {s : Server}
    (hs : alookup skey ((alookup pkey st.pools).getD { Servers := [] }).Servers = some s)
    (hp : s.Processed = false) (he : areAllSetsOK s = true)
    (hb : alookup s.Endpoint bucket = none)
    (hc : bucket.any (fun rv => haveMatchingSets rv.2 s) = false) :
    doServer pkey (st, bucket) skey =
      ({ st with
          pools := aupd pkey
            { Servers := aupd skey { s with Processed := true }
                ((alookup pkey st.pools).getD { Servers := [] }).Servers }
            st.pools
          processed := st.processed + 1 },
       aupd s.Endpoint { s with Processed := true } bucket) := by
  unfold doServer
  simp only [hs, hp, he, hb, hc]
  simp

/-- One `doServer` step preserves the scheduler invariant of the state
with the working bucket written back. -/
theorem doServer_preserves (i : Nat) (pkey skey : String)
    (st : SchedState) (bucket : List (String × Server))
    (hinv : SchedInv (withBucket st i pkey bucket)) :
    SchedInv (withBucket (doServer pkey (st, bucket) skey).1 i pkey
      (doServer pkey (st, bucket) skey).2) := by
  cases hsv : alookup skey ((alookup pkey st.pools).getD { Servers := [] }).Servers with
  | none => rw [doServer_none hsv]; exact hinv
  | some s =>
    cases hp : s.Processed with
    | true => rw [doServer_processed hsv hp]; exact hinv
    | false =>
      cases he : areAllSetsOK s with
      | false =>
        rw [doServer_unhealthy hsv hp he]
        obtain ⟨htag, hsafe, helig, hplaced, hprocok, hendk, hfail1, hfail2, honce, hcount⟩ :=
          hinv
        refine ⟨htag, hsafe, helig, hplaced, hprocok, hendk, ?_, ?_, honce, hcount⟩
        · intro e s0 hs0
          simp only [withBucket_unhealthy] at hs0
          by_cases heq : s.Endpoint = e
          · subst heq
            rw [alookup_aupd_self] at hs0
            rw [← Option.some.inj hs0]
            exact he
          · rw [alookup_aupd_ne heq] at hs0
            exact hfail1 e s0 hs0
        · intro e s0 hs0
          simp only [withBucket_unhealthy] at hs0
          simp only [withBucket_pools]
          by_cases heq : s.Endpoint = e
          · subst heq
            rw [alookup_aupd_self] at hs0
            have hmem_s : (skey, s) ∈
                (poolAt st.pools pkey).Servers := mem_of_alookup_eq_some hsv
            have hsend : s.Endpoint = skey := hendk pkey (skey, s) hmem_s
            refine ⟨pkey, s, ?_, ?_⟩
            · rw [hsend]
              exact hsv
            · exact he
          · rw [alookup_aupd_ne heq] at hs0
            exact hfail2 e s0 hs0
      | true =>
        cases hb : alookup s.Endpoint bucket with
        | some x => rw [doServer_inbucket hsv hp he hb]; exact hinv
        | none =>
          cases hc : bucket.any (fun rv => haveMatchingSets rv.2 s) with
          | true => rw [doServer_conflict hsv hp he hb hc]; exact hinv
          | false =>
            rw [doServer_place hsv hp he hb hc]
            obtain ⟨⟨htagP, htagB⟩, hsafe, helig, hplaced, hprocok, hendk, hfail1,
              hfail2, honce, hcount1, hcount2⟩ := hinv
            have hpool : alookup pkey st.pools =
                some ((alookup pkey st.pools).getD { Servers := [] }) := by
              cases hq : alookup pkey st.pools with
              | none => rw [hq] at hsv; simp [alookup] at hsv
              | some p0 => rfl
            have hmem_s : (skey, s) ∈
                ((alookup pkey st.pools).getD { Servers := [] }).Servers :=
              mem_of_alookup_eq_some hsv
            have hsend : s.Endpoint = skey := hendk pkey (skey, s) hmem_s
            have htagv : PoolTagged pkey ((alookup pkey st.pools).getD { Servers := [] }) :=
              htagP _ (mem_of_alookup_eq_some hpool)
            have hnotin : s.Endpoint ∉ keysOf bucket := by
              intro hmem
              have := alookup_isSome_iff_mem_keys.mpr hmem
              rw [hb] at this
              simp at this
            have happend : aupd s.Endpoint { s with Processed := true } bucket =
                bucket ++ [(s.Endpoint, { s with Processed := true })] :=
              aupd_of_not_mem hnotin _
            have hconf : ∀ rv ∈ bucket, haveMatchingSets rv.2 s = false := by
              intro rv hrv
              have := List.any_eq_false.mp hc rv hrv
              simpa using this
            have hbself : bucketAt (withBucket st i pkey bucket) i pkey = bucket :=
              bucketAt_withBucket_self st i pkey bucket
            obtain ⟨l1, l2, hvsplit, hl1k, hupd⟩ := alookup_spine hsv
            refine ⟨⟨?_, ?_⟩, ?_, ?_, ?_, ?_, ?_, hfail1, ?_, ?_, ?_, ?_⟩
            -- PoolsTagged for the updated pools
            · simp only [withBucket_pools]
              intro pp hpp
              rcases mem_aupd hpp with h1 | h1
              · rw [h1]
                intro sv hsv2 se hse
                rcases mem_aupd hsv2 with h2 | h2
                · rw [h2] at hse
                  exact htagv (skey, s) hmem_s se hse
                · exact htagv sv h2 se hse
              · exact htagP pp h1
            -- buckets tagged
            · intro j q
              by_cases hjq : j = i ∧ q = pkey
              · obtain ⟨hj, hq⟩ := hjq
                subst hj
                subst hq
                rw [bucketAt_withBucket_self]
                intro sv hsv2 se hse
                rw [happend] at hsv2
                rcases (by simpa using hsv2 :
                    sv ∈ bucket ∨ sv = (s.Endpoint, { s with Processed := true })) with
                  h2 | h2
                · have := htagB j q
                  rw [hbself] at this
                  exact this sv h2 se hse
                · rw [h2] at hse
                  exact htagv (skey, s) hmem_s se hse
              · rw [bucketAt_withBucket_ne _ _ hjq]
                have := htagB j q
                rw [bucketAt_withBucket_ne st bucket hjq] at this
                exact this
            -- conflict-freedom
            · intro j q
              by_cases hjq : j = i ∧ q = pkey
              · obtain ⟨hj, hq⟩ := hjq
                subst hj
                subst hq
                rw [bucketAt_withBucket_self, happend]
                unfold BucketSafe
                rw [List.pairwise_append]
                refine ⟨?_, by simp, ?_⟩
                · have := hsafe j q
                  rw [hbself] at this
                  exact this
                · intro a ha bb hbb
                  have hbb2 : bb = (s.Endpoint, { s with Processed := true }) := by
                    simpa using hbb
                  rw [hbb2]
                  constructor
                  · rw [haveMatchingSets_markProcessed_right]
                    exact hconf a ha
                  · rw [haveMatchingSets_markProcessed_left]
                    exact haveMatchingSets_symm_false (hconf a ha)
              · rw [bucketAt_withBucket_ne _ _ hjq]
                have := hsafe j q
                rw [bucketAt_withBucket_ne st bucket hjq] at this
                exact this
            -- placed servers eligible
            · intro j q sv hsv2
              by_cases hjq : j = i ∧ q = pkey
              · obtain ⟨hj, hq⟩ := hjq
                subst hj
                subst hq
                rw [bucketAt_withBucket_self, happend] at hsv2
                rcases (by simpa using hsv2 :
                    sv ∈ bucket ∨ sv = (s.Endpoint, { s with Processed := true })) with
                  h2 | h2
                · have := helig j q sv
                  rw [hbself] at this
                  exact this h2
                · rw [h2]
                  rw [show ({ s with Processed := true } : Server).Sets = s.Sets from rfl]
                  exact he
              · rw [bucketAt_withBucket_ne _ _ hjq] at hsv2
                have := helig j q sv
                rw [bucketAt_withBucket_ne st bucket hjq] at this
                exact this hsv2
            -- placed entries are processed in the pools
            · intro j q e s0 hs0
              simp only [withBucket_pools]
              by_cases hqp : q = pkey
              · subst hqp
                have hPservers : (poolAt (aupd q
                    { Servers := aupd skey { s with Processed := true }
                        ((alookup q st.pools).getD { Servers := [] }).Servers }
                    st.pools) q).Servers =
                    aupd skey { s with Processed := true }
                      ((alookup q st.pools).getD { Servers := [] }).Servers := by
                  unfold poolAt
                  rw [alookup_aupd_self]
                  rfl
                rw [hPservers]
                by_cases hji : j = i
                · subst hji
                  rw [bucketAt_withBucket_self] at hs0
                  by_cases hesk : e = s.Endpoint
                  · subst hesk
                    refine ⟨{ s with Processed := true }, ?_, rfl⟩
                    rw [hsend, alookup_aupd_self]
                  · rw [alookup_aupd_ne (fun hh => hesk hh.symm)] at hs0
                    obtain ⟨s1, hs1a, hs1b⟩ := hplaced j q e s0
                      (by rw [hbself]; exact hs0)
                    have hesk2 : e ≠ skey := by
                      intro hh
                      have h3 : alookup skey
                          ((alookup q st.pools).getD { Servers := [] }).Servers =
                          some s1 := by
                        rw [← hh]
                        exact hs1a
                      rw [hsv] at h3
                      rw [(Option.some.inj h3).symm] at hs1b
                      rw [hs1b] at hp
                      exact absurd hp (by simp)
                    refine ⟨s1, ?_, hs1b⟩
                    rw [alookup_aupd_ne (fun hh => hesk2 hh.symm)]
                    exact hs1a
                · have hjq2 : ¬ (j = i ∧ q = q) := fun hh => hji hh.1
                  rw [bucketAt_withBucket_ne _ _ hjq2] at hs0
                  obtain ⟨s1, hs1a, hs1b⟩ := hplaced j q e s0
                    (by rw [bucketAt_withBucket_ne st bucket hjq2]; exact hs0)
                  by_cases hesk2 : e = skey
                  · exfalso
                    have h3 : alookup skey
                        ((alookup q st.pools).getD { Servers := [] }).Servers =
                        some s1 := by
                      rw [← hesk2]
                      exact hs1a
                    rw [hsv] at h3
                    rw [(Option.some.inj h3).symm] at hs1b
                    rw [hs1b] at hp
                    exact absurd hp (by simp)
                  · refine ⟨s1, ?_, hs1b⟩
                    rw [alookup_aupd_ne (fun hh => hesk2 hh.symm)]
                    exact hs1a
              · have hPne : poolAt (aupd pkey
                    { Servers := aupd skey { s with Processed := true }
                        ((alookup pkey st.pools).getD { Servers := [] }).Servers }
                    st.pools) q = poolAt st.pools q := by
                  unfold poolAt
                  rw [alookup_aupd_ne (fun hh => hqp hh.symm)]
                rw [hPne]
                have hjq2 : ¬ (j = i ∧ q = pkey) := fun hh => hqp hh.2
                rw [bucketAt_withBucket_ne _ _ hjq2] at hs0
                obtain ⟨s1, hs1a, hs1b⟩ := hplaced j q e s0
                  (by rw [bucketAt_withBucket_ne st bucket hjq2]; exact hs0)
                exact ⟨s1, hs1a, hs1b⟩
            -- processed implies eligible
            · simp only [withBucket_pools]
              intro q sv hsv2 hpr
              by_cases hqp : q = pkey
              · subst hqp
                have hPservers : (poolAt (aupd q
                    { Servers := aupd skey { s with Processed := true }
                        ((alookup q st.pools).getD { Servers := [] }).Servers }
                    st.pools) q).Servers =
                    aupd skey { s with Processed := true }
                      ((alookup q st.pools).getD { Servers := [] }).Servers := by
                  unfold poolAt
                  rw [alookup_aupd_self]
                  rfl
                rw [hPservers] at hsv2
                rcases mem_aupd hsv2 with h2 | h2
                · rw [h2]
                  exact he
                · exact hprocok q sv h2 hpr
              · have hPne : poolAt (aupd pkey
                    { Servers := aupd skey { s with Processed := true }
                        ((alookup pkey st.pools).getD { Servers := [] }).Servers }
                    st.pools) q = poolAt st.pools q := by
                  unfold poolAt
                  rw [alookup_aupd_ne (fun hh => hqp hh.symm)]
                rw [hPne] at hsv2
                exact hprocok q sv hsv2 hpr
            -- endpoints match keys
            · simp only [withBucket_pools]
              intro q sv hsv2
              by_cases hqp : q = pkey
              · subst hqp
                have hPservers : (poolAt (aupd q
                    { Servers := aupd skey { s with Processed := true }
                        ((alookup q st.pools).getD { Servers := [] }).Servers }
                    st.pools) q).Servers =
                    aupd skey { s with Processed := true }
                      ((alookup q st.pools).getD { Servers := [] }).Servers := by
                  unfold poolAt
                  rw [alookup_aupd_self]
                  rfl
                rw [hPservers] at hsv2
                rcases mem_aupd hsv2 with h2 | h2
                · rw [h2]
                  exact hsend
                · exact hendk q sv h2
              · have hPne : poolAt (aupd pkey
                    { Servers := aupd skey { s with Processed := true }
                        ((alookup pkey st.pools).getD { Servers := [] }).Servers }
                    st.pools) q = poolAt st.pools q := by
                  unfold poolAt
                  rw [alookup_aupd_ne (fun hh => hqp hh.symm)]
                rw [hPne] at hsv2
                exact hendk q sv hsv2
            -- failure entries still point into the pools
            · simp only [withBucket_pools, withBucket_unhealthy]
              intro e s0 hs0
              obtain ⟨qkey, s1, hq1, hq2⟩ := hfail2 e s0 hs0
              by_cases hqp : qkey = pkey
              · subst hqp
                by_cases hesk : e = skey
                · exfalso
                  have h3 : alookup skey
                      ((alookup qkey st.pools).getD { Servers := [] }).Servers =
                      some s1 := by
                    rw [← hesk]
                    exact hq1
                  rw [hsv] at h3
                  rw [(Option.some.inj h3).symm] at hq2
                  rw [hq2] at he
                  exact absurd he (by simp)
                · refine ⟨qkey, s1, ?_, hq2⟩
                  have hPservers : (poolAt (aupd qkey
                      { Servers := aupd skey { s with Processed := true }
                            ((alookup qkey st.pools).getD { Servers := [] }).Servers }
                      st.pools) qkey).Servers =
                      aupd skey { s with Processed := true }
                        ((alookup qkey st.pools).getD { Servers := [] }).Servers := by
                    unfold poolAt
                    rw [alookup_aupd_self]
                    rfl
                  rw [hPservers]
                  rw [alookup_aupd_ne (fun hh => hesk hh.symm)]
                  exact hq1
              · refine ⟨qkey, s1, ?_, hq2⟩
                have hPne : poolAt (aupd pkey
                    { Servers := aupd skey { s with Processed := true }
                        ((alookup pkey st.pools).getD { Servers := [] }).Servers }
                    st.pools) qkey = poolAt st.pools qkey := by
                  unfold poolAt
                  rw [alookup_aupd_ne (fun hh => hqp hh.symm)]
                rw [hPne]
                exact hq1
            -- at most one round per endpoint per pool
            · intro q e j1 j2 h1 h2
              by_cases hqp : q = pkey
              · subst hqp
                by_cases hesp : e = s.Endpoint
                · subst hesp
                  have hnotold : ∀ j0, j0 ≠ i →
                      (alookup s.Endpoint
                        (bucketAt (withBucket st i q bucket) j0 q)).isSome = true →
                      False := by
                    intro j0 hj0 hsome
                    cases hlk : alookup s.Endpoint
                        (bucketAt (withBucket st i q bucket) j0 q) with
                    | none => rw [hlk] at hsome; simp at hsome
                    | some s2 =>
                      obtain ⟨s1, hs1a, hs1b⟩ := hplaced j0 q s.Endpoint s2 hlk
                      have hseq : s1 = s := by
                        have h3 : alookup s.Endpoint
                            ((alookup q st.pools).getD { Servers := [] }).Servers =
                            some s1 := hs1a
                        rw [hsend] at h3
                        rw [hsv] at h3
                        exact (Option.some.inj h3).symm
                      rw [hseq] at hs1b
                      rw [hs1b] at hp
                      exact absurd hp (by simp)
                  have hj1i : j1 = i := by
                    by_contra hj0
                    have hjq2 : ¬ (j1 = i ∧ q = q) := fun hh => hj0 hh.1
                    rw [bucketAt_withBucket_ne _ _ hjq2] at h1
                    exact hnotold j1 hj0
                      (by rw [bucketAt_withBucket_ne st bucket hjq2]; exact h1)
                  have hj2i : j2 = i := by
                    by_contra hj0
                    have hjq2 : ¬ (j2 = i ∧ q = q) := fun hh => hj0 hh.1
                    rw [bucketAt_withBucket_ne _ _ hjq2] at h2
                    exact hnotold j2 hj0
                      (by rw [bucketAt_withBucket_ne st bucket hjq2]; exact h2)
                  rw [hj1i, hj2i]
                · have hr1 : (alookup e (bucketAt (withBucket st i q bucket) j1 q)).isSome
                      = true := by
                    by_cases hj0 : j1 = i
                    · subst hj0
                      rw [bucketAt_withBucket_self] at h1
                      rw [alookup_aupd_ne (fun hh => hesp hh.symm)] at h1
                      rw [bucketAt_withBucket_self]
                      exact h1
                    · have hjq2 : ¬ (j1 = i ∧ q = q) := fun hh => hj0 hh.1
                      rw [bucketAt_withBucket_ne _ _ hjq2] at h1
                      rw [bucketAt_withBucket_ne st bucket hjq2]
                      exact h1
                  have hr2 : (alookup e (bucketAt (withBucket st i q bucket) j2 q)).isSome
                      = true := by
                    by_cases hj0 : j2 = i
                    · subst hj0
                      rw [bucketAt_withBucket_self] at h2
                      rw [alookup_aupd_ne (fun hh => hesp hh.symm)] at h2
                      rw [bucketAt_withBucket_self]
                      exact h2
                    · have hjq2 : ¬ (j2 = i ∧ q = q) := fun hh => hj0 hh.1
                      rw [bucketAt_withBucket_ne _ _ hjq2] at h2
                      rw [bucketAt_withBucket_ne st bucket hjq2]
                      exact h2
                  exact honce q e j1 j2 hr1 hr2
              · have hjq1 : ¬ (j1 = i ∧ q = pkey) := fun hh => hqp hh.2
                have hjqx : ¬ (j2 = i ∧ q = pkey) := fun hh => hqp hh.2
                rw [bucketAt_withBucket_ne _ _ hjq1] at h1
                rw [bucketAt_withBucket_ne _ _ hjqx] at h2
                exact honce q e j1 j2
                  (by rw [bucketAt_withBucket_ne st bucket hjq1]; exact h1)
                  (by rw [bucketAt_withBucket_ne st bucket hjqx]; exact h2)
            -- processed counter
            · show st.processed + 1 = (numProcessed (aupd pkey
                  { Servers := aupd skey { s with Processed := true }
                        ((alookup pkey st.pools).getD { Servers := [] }).Servers }
                  st.pools) : Int)
              rw [hupd { s with Processed := true }]
              have h2 : numProcessed (aupd pkey
                  { Servers := l1 ++ (skey, { s with Processed := true }) :: l2 }
                  st.pools) +
                    (((alookup pkey st.pools).getD { Servers := [] }).Servers.filter
                      (fun sv => sv.2.Processed)).length =
                  numProcessed st.pools +
                    ((l1 ++ (skey, { s with Processed := true }) :: l2).filter
                      (fun sv => sv.2.Processed)).length :=
                numProcessed_aupd st.pools pkey _
              rw [hvsplit] at h2
              simp only [List.filter_append, List.filter_cons, List.length_append] at h2
              rw [hp] at h2
              simp at h2
              have hcount1' : st.processed = (numProcessed st.pools : Int) := hcount1
              omega
            -- total counter
            · show st.totalServers = (numServers (aupd pkey
                  { Servers := aupd skey { s with Processed := true }
                        ((alookup pkey st.pools).getD { Servers := [] }).Servers }
                  st.pools) : Int)
              rw [hupd { s with Processed := true }]
              have h2 : numServers (aupd pkey
                  { Servers := l1 ++ (skey, { s with Processed := true }) :: l2 }
                  st.pools) +
                    ((alookup pkey st.pools).getD { Servers := [] }).Servers.length =
                  numServers st.pools +
                    (l1 ++ (skey, { s with Processed := true }) :: l2).length :=
                numServers_aupd st.pools pkey _
              rw [hvsplit] at h2
              simp only [List.length_append, List.length_cons] at h2
              have hcount2' : st.totalServers = (numServers st.pools : Int) := hcount2
              omega

/-- `doPool` preserves the scheduler invariant: it folds `doServer` over
the pool's sorted server keys starting from the stored bucket, then
writes the bucket back. -/
theorem doPool_preserves (i : Nat) (st : SchedState) (pkey : String)
    (hinv : SchedInv st) : SchedInv (doPool i st pkey) := by
  have h0 : SchedInv (withBucket st i pkey (bucketAt st i pkey)) :=
    @SchedInv_congr st (withBucket st i pkey (bucketAt st i pkey)) rfl
      (fun j q => (bucketAt_withBucket_same st i pkey j q).symm) rfl rfl rfl hinv
  have hfold : ∀ (l : List String) (stb : SchedState × List (String × Server)),
      SchedInv (withBucket stb.1 i pkey stb.2) →
      SchedInv (withBucket (l.foldl (doServer pkey) stb).1 i pkey
        (l.foldl (doServer pkey) stb).2) :=
    foldl_preserve (fun stb => SchedInv (withBucket stb.1 i pkey stb.2))
      (doServer pkey)
      (fun stb skey hstb => doServer_preserves i pkey skey stb.1 stb.2 hstb)
  exact hfold
    (serverKeysSorted ((alookup pkey st.pools).getD { Servers := [] }).Servers)
    (st, bucketAt st i pkey) h0

/-- `doRound` preserves the scheduler invariant. -/
theorem doRound_preserves (poolss : List String) (i : Nat) (st : SchedState)
    (hinv : SchedInv st) : SchedInv (doRound poolss i st) :=
  foldl_preserve SchedInv (doPool i) (fun st0 pkey h0 => doPool_preserves i st0 pkey h0)
    poolss st hinv

/-- Setting the `early` flag does not affect the invariant. -/
theorem SchedInv_early (st : SchedState) (hinv : SchedInv st) :
    SchedInv { st with early := true } :=
  SchedInv_congr rfl (fun _ _ => rfl) rfl rfl rfl hinv

/-- The round loop preserves the scheduler invariant. -/
theorem runRounds_preserves (poolss : List String) (l : List Nat) (st : SchedState)
    (hinv : SchedInv st) : SchedInv (runRounds poolss l st) := by
  induction l generalizing st with
  | nil => exact hinv
  | cons i rest ih =>
    unfold runRounds
    by_cases hc : st.processed ≥ st.totalServers
    · rw [if_pos hc]
      exact SchedInv_early st hinv
    · rw [if_neg hc]
      exact ih (doRound poolss i st) (doRound_preserves poolss i st hinv)

/-- A server list with no processed entry contributes nothing to
`numProcessed`. -/
theorem numProcessed_zero (pools : List (String × Pool))
    (h : ∀ pp ∈ pools, ∀ sv ∈ pp.2.Servers, sv.2.Processed = false) :
    numProcessed pools = 0 := by
  induction pools with
  | nil => rfl
  | cons hd t ih =>
    unfold numProcessed
    simp only [List.map_cons, List.sum_cons]
    have h1 : hd.2.Servers.filter (fun sv => sv.2.Processed) = [] := by
      apply List.filter_eq_nil_iff.mpr
      intro sv hsv
      rw [h hd (List.mem_cons_self hd t) sv hsv]
      simp
    rw [h1]
    have h2 : numProcessed t = 0 :=
      ih (fun pp hpp => h pp (List.mem_cons_of_mem hd hpp))
    unfold numProcessed at h2
    simp [h2]

/-- The invariant holds for the scheduler's start state, given the
structural facts established by the topology builder. -/
theorem SchedInv_init (pools : List (String × Pool)) (tot : Int)
    (htag : PoolsTagged pools)
    (hproc : ∀ pp ∈ pools, ∀ sv ∈ pp.2.Servers, sv.2.Processed = false)
    (hend : ∀ pp ∈ pools, ∀ sv ∈ pp.2.Servers, sv.2.Endpoint = sv.1)
    (htot : tot = (numServers pools : Int)) :
    SchedInv { pools := pools, rounds := [], unhealthy := [], processed := 0,
                 totalServers := tot, early := false } := by
  have hbteq : ∀ (i : Nat) (pkey : String),
      bucketAt ({ pools := pools, rounds := [], unhealthy := [], processed := 0,
                    totalServers := tot, early := false } : SchedState) i pkey = [] := by
    intro i pkey
    rfl
  have hpoolmem : ∀ (pkey : String) (sv : String × Server),
      sv ∈ (poolAt pools pkey).Servers → ∃ pp ∈ pools, sv ∈ pp.2.Servers := by
    intro pkey sv hsv
    unfold poolAt at hsv
    cases hq : alookup pkey pools with
    | none => rw [hq] at hsv; simp at hsv
    | some p0 =>
      rw [hq] at hsv
      exact ⟨(pkey, p0), mem_of_alookup_eq_some hq, hsv⟩
  refine ⟨⟨htag, ?_⟩, ?_, ?_, ?_, ?_, ?_, ?_, ?_, ?_, ?_, ?_⟩
  · intro i pkey
    rw [hbteq i pkey]
    intro sv hsv
    simp at hsv
  · intro i pkey
    rw [hbteq i pkey]
    exact List.Pairwise.nil
  · intro i pkey sv hsv
    rw [hbteq i pkey] at hsv
    simp at hsv
  · intro i pkey e s hs
    rw [hbteq i pkey] at hs
    simp [alookup] at hs
  · intro pkey sv hsv hpr
    obtain ⟨pp, hpp, hsv2⟩ := hpoolmem pkey sv hsv
    rw [hproc pp hpp sv hsv2] at hpr
    exact absurd hpr (by simp)
  · intro pkey sv hsv
    obtain ⟨pp, hpp, hsv2⟩ := hpoolmem pkey sv hsv
    exact hend pp hpp sv hsv2
  · intro e s hs
    simp [alookup] at hs
  · intro e s hs
    simp [alookup] at hs
  · intro pkey e i j h1 h2
    rw [hbteq i pkey] at h1
    simp [alookup] at h1
  · show (0 : Int) = (numProcessed pools : Int)
    rw [numProcessed_zero pools hproc]
    simp
  · exact htot

/-- `makeHostfile` establishes the scheduler invariant whenever its input
satisfies the topology builder's structural facts. -/
theorem makeHostfile_inv (pools : List (String × Pool)) (tot : Int)
    (htag : PoolsTagged pools)
    (hproc : ∀ pp ∈ pools, ∀ sv ∈ pp.2.Servers, sv.2.Processed = false)
    (hend : ∀ pp ∈ pools, ∀ sv ∈ pp.2.Servers, sv.2.Endpoint = sv.1)
    (htot : tot = (numServers pools : Int)) :
    SchedInv (makeHostfile pools tot) := by
  unfold makeHostfile
  exact runRounds_preserves (stringKeysSorted pools) (List.range 200) _
    (SchedInv_init pools tot htag hproc hend htot)

/-- `doServer` never touches the `early` flag. -/
theorem doServer_early (pkey : String) (stb : SchedState × List (String × Server))
    (skey : String) : (doServer pkey stb skey).1.early = stb.1.early := by
  unfold doServer
  simp only []
  split
  · rfl
  · split
    · rfl
    · split
      · rfl
      · split
        · rfl
        · split
          · rfl
          · rfl

/-- `doPool` never touches the `early` flag. -/
theorem doPool_early (i : Nat) (st : SchedState) (pkey : String) :
    (doPool i st pkey).early = st.early := by
  have h := foldl_preserve (fun b : SchedState × List (String × Server) =>
      b.1.early = st.early) (doServer pkey)
    (fun b k hb => (doServer_early pkey b k).trans hb)
    (serverKeysSorted ((alookup pkey st.pools).getD { Servers := [] }).Servers)
    (st, (alookup pkey ((alookup i st.rounds).getD [])).getD []) rfl
  exact h

/-- `doRound` never touches the `early` flag. -/
theorem doRound_early (poolss : List String) (i : Nat) (st : SchedState) :
    (doRound poolss i st).early = st.early := by
  exact foldl_preserve (fun s : SchedState => s.early = st.early) (doPool i)
    (fun s pkey hs => (doPool_early i s pkey).trans hs) poolss st rfl

/-- When the round loop raises the `early` flag, the invariant still holds
and the processed counter has reached the server total. -/
theorem runRounds_early (poolss : List String) (l : List Nat) (st : SchedState)
    (h0 : st.early = false) (hinv : SchedInv st)
    (he : (runRounds poolss l st).early = true) :
    SchedInv (runRounds poolss l st) ∧
      (runRounds poolss l st).processed ≥ (runRounds poolss l st).totalServers := by
  induction l generalizing st with
  | nil =>
    unfold runRounds at he
    rw [h0] at he
    exact absurd he (by simp)
  | cons i rest ih =>
    by_cases hc : st.processed ≥ st.totalServers
    · unfold runRounds
      rw [if_pos hc]
      exact ⟨SchedInv_early st hinv, hc⟩
    · unfold runRounds at he ⊢
      rw [if_neg hc] at he ⊢
      exact ih (doRound poolss i st)
        ((doRound_early poolss i st).trans h0)
        (doRound_preserves poolss i st hinv) he

/-- Filtering never grows a list, summed over all pools. -/
theorem numProcessed_le_numServers (pools : List (String × Pool)) :
    numProcessed pools ≤ numServers pools := by
  induction pools with
  | nil => exact Nat.le_refl 0
  | cons hd t ih =>
    unfold numProcessed numServers at *
    simp only [List.map_cons, List.sum_cons]
    have h1 := List.length_filter_le (fun sv : String × Server => sv.2.Processed)
      hd.2.Servers
    omega

/-- A filter that keeps the whole length keeps every element. -/
theorem filter_full {α : Type} (p : α → Bool) (l : List α)
    (h : l.length ≤ (l.filter p).length) : ∀ x ∈ l, p x = true := by
  induction l with
  | nil => intro x hx; simp at hx
  | cons hd t ih =>
    intro x hx
    cases hp : p hd with
    | true =>
      rw [List.filter_cons, if_pos (by simp [hp])] at h
      simp only [List.length_cons] at h
      rcases List.mem_cons.mp hx with h1 | h1
      · rw [h1]; exact hp
      · exact ih (by omega) x h1
    | false =>
      rw [List.filter_cons, if_neg (by simp [hp])] at h
      have h2 := List.length_filter_le p t
      simp only [List.length_cons] at h
      omega

/-- When the processed counter reaches the server total, every server of
every pool is marked processed. -/
theorem all_processed_of_counts (pools : List (String × Pool))
    (h : numServers pools ≤ numProcessed pools) :
    ∀ pp ∈ pools, ∀ sv ∈ pp.2.Servers, sv.2.Processed = true := by
  induction pools with
  | nil => intro pp hpp; simp at hpp
  | cons hd t ih =>
    unfold numServers numProcessed at h
    simp only [List.map_cons, List.sum_cons] at h
    have h1 := List.length_filter_le (fun sv : String × Server => sv.2.Processed)
      hd.2.Servers
    have h2 := numProcessed_le_numServers t
    unfold numProcessed numServers at h2
    intro pp hpp
    rcases List.mem_cons.mp hpp with h3 | h3
    · rw [h3]
      exact filter_full _ hd.2.Servers (by omega)
    · refine ih ?_ pp h3
      unfold numServers numProcessed
      omega

/-! ### Failure-list coverage: an ineligible server always lands in the
failure list.  Round 0 visits every server key of every pool; `doServer`
unconditionally adds an unprocessed server failing `areAllSetsOK` to
`unhealthy`, ineligible servers are never placed (so never marked
processed), and nothing ever removes a failure-list entry. -/

theorem alookup_aupd_isSome_mono {K : Type} [DecidableEq K] {α : Type}
    {e : K} {l : List (K × α)} (k : K) (v : α)
    (h : (alookup e l).isSome = true) :
    (alookup e (aupd k v l)).isSome = true := by
  by_cases hk : k = e
  · subst hk
    rw [alookup_aupd_self]
    rfl
  · rw [alookup_aupd_ne hk]
    exact h

/-- `doServer` never removes a failure-list entry. -/
theorem doServer_unhealthy_mono (pkey k : String)
    (stb : SchedState × List (String × Server)) (e : String)
    (h : (alookup e stb.1.unhealthy).isSome = true) :
    (alookup e (doServer pkey stb k).1.unhealthy).isSome = true := by
  unfold doServer
  simp only []
  split
  · exact h
  · split
    · exact h
    · split
      · exact alookup_aupd_isSome_mono _ _ h
      · split
        · exact h
        · split
          · exact h
          · exact h

/-- `doServer` changes no pool binding other than its own pool's. -/
theorem doServer_pools_ne (pkey q k : String) (hne : pkey ≠ q)
    (stb : SchedState × List (String × Server)) :
    alookup q (doServer pkey stb k).1.pools = alookup q stb.1.pools := by
  unfold doServer
  simp only []
  split
  · rfl
  · split
    · rfl
    · split
      · rfl
      · split
        · rfl
        · split
          · rfl
          · exact alookup_aupd_ne hne _ _

/-- `doPool` never removes a failure-list entry. -/
theorem doPool_unhealthy_mono (i : Nat) (st : SchedState) (pkey e : String)
    (h : (alookup e st.unhealthy).isSome = true) :
    (alookup e (doPool i st pkey).unhealthy).isSome = true := by
  have hfold := foldl_preserve (fun stb : SchedState × List (String × Server) =>
      (alookup e stb.1.unhealthy).isSome = true) (doServer pkey)
    (fun stb k hstb => doServer_unhealthy_mono pkey k stb e hstb)
    (serverKeysSorted ((alookup pkey st.pools).getD { Servers := [] }).Servers)
    (st, (alookup pkey ((alookup i st.rounds).getD [])).getD []) h
  exact hfold

/-- `doPool` changes no pool binding other than its own pool's. -/
theorem doPool_pools_ne (i : Nat) (st : SchedState) {pkey q : String}
    (hne : pkey ≠ q) :
    alookup q (doPool i st pkey).pools = alookup q st.pools := by
  have hfold := foldl_preserve (fun stb : SchedState × List (String × Server) =>
      alookup q stb.1.pools = alookup q st.pools) (doServer pkey)
    (fun stb k hstb => (doServer_pools_ne pkey q k hne stb).trans hstb)
    (serverKeysSorted ((alookup pkey st.pools).getD { Servers := [] }).Servers)
    (st, (alookup pkey ((alookup i st.rounds).getD [])).getD []) rfl
  exact hfold

/-- `doRound` never removes a failure-list entry. -/
theorem doRound_unhealthy_mono (poolss : List String) (i : Nat) (st : SchedState)
    (e : String) (h : (alookup e st.unhealthy).isSome = true) :
    (alookup e (doRound poolss i st).unhealthy).isSome = true := by
  unfold doRound
  exact foldl_preserve (fun st' : SchedState =>
      (alookup e st'.unhealthy).isSome = true) (doPool i)
    (fun st' p' hst' => doPool_unhealthy_mono i st' p' e hst') poolss st h

/-- The round loop never removes a failure-list entry. -/
theorem runRounds_unhealthy_mono (poolss : List String) (l : List Nat)
    (st : SchedState) (e : String)
    (h : (alookup e st.unhealthy).isSome = true) :
    (alookup e (runRounds poolss l st).unhealthy).isSome = true := by
  induction l generalizing st with
  | nil => exact h
  | cons i rest ih =>
    unfold runRounds
    by_cases hc : st.processed ≥ st.totalServers
    · rw [if_pos hc]
      exact h
    · rw [if_neg hc]
      exact ih (doRound poolss i st) (doRound_unhealthy_mono poolss i st e h)

/-- Visiting some server key `k` of the pool keeps an ineligible server's
binding intact (or it is already failure-listed): ineligible servers are
never placed, and placements of other keys do not disturb the binding. -/
theorem doServer_Q (pkey skey k : String) (s : Server) (st : SchedState)
    (bucket : List (String × Server)) (hok : areAllSetsOK s = false)
    (hq : (alookup s.Endpoint st.unhealthy).isSome = true ∨
      alookup skey ((alookup pkey st.pools).getD { Servers := [] }).Servers = some s) :
    (alookup s.Endpoint (doServer pkey (st, bucket) k).1.unhealthy).isSome = true ∨
    alookup skey ((alookup pkey (doServer pkey (st, bucket) k).1.pools).getD
      { Servers := [] }).Servers = some s := by
  rcases hq with hl | hr
  · exact Or.inl (doServer_unhealthy_mono pkey k (st, bucket) s.Endpoint hl)
  · cases hsv : alookup k ((alookup pkey st.pools).getD { Servers := [] }).Servers with
    | none =>
      rw [doServer_none hsv]
      exact Or.inr hr
    | some s2 =>
      cases hp2 : s2.Processed with
      | true =>
        rw [doServer_processed hsv hp2]
        exact Or.inr hr
      | false =>
        cases hok2 : areAllSetsOK s2 with
        | false =>
          rw [doServer_unhealthy hsv hp2 hok2]
          exact Or.inr hr
        | true =>
          cases hb : alookup s2.Endpoint bucket with
          | some x =>
            rw [doServer_inbucket hsv hp2 hok2 hb]
            exact Or.inr hr
          | none =>
            cases hc : bucket.any (fun rv => haveMatchingSets rv.2 s2) with
            | true =>
              rw [doServer_conflict hsv hp2 hok2 hb hc]
              exact Or.inr hr
            | false =>
              rw [doServer_place hsv hp2 hok2 hb hc]
              right
              show alookup skey ((alookup pkey (aupd pkey
                  { Servers := aupd k { s2 with Processed := true }
                      ((alookup pkey st.pools).getD { Servers := [] }).Servers }
                  st.pools)).getD { Servers := [] }).Servers = some s
              rw [alookup_aupd_self]
              show alookup skey (aupd k { s2 with Processed := true }
                ((alookup pkey st.pools).getD { Servers := [] }).Servers) = some s
              by_cases hks : k = skey
              · exfalso
                subst hks
                have hss : s = s2 := Option.some.inj (hr.symm.trans hsv)
                rw [← hss] at hok2
                rw [hok2] at hok
                exact absurd hok (by simp)
              · rw [alookup_aupd_ne hks]
                exact hr

/-- Processing an unprocessed ineligible server puts it in the failure
list. -/
theorem doServer_secures (pkey skey : String) (s : Server) (st : SchedState)
    (bucket : List (String × Server)) (hok : areAllSetsOK s = false)
    (hbind : alookup skey
      ((alookup pkey st.pools).getD { Servers := [] }).Servers = some s)
    (hproc : s.Processed = false) :
    (alookup s.Endpoint (doServer pkey (st, bucket) skey).1.unhealthy).isSome = true := by
  rw [doServer_unhealthy hbind hproc hok]
  show (alookup s.Endpoint (aupd s.Endpoint s st.unhealthy)).isSome = true
  rw [alookup_aupd_self]
  rfl

/-- A pool pass failure-lists every ineligible server of its pool. -/
theorem doPool_secures (i : Nat) (st : SchedState) (pkey skey : String)
    (s : Server) (hok : areAllSetsOK s = false) (hinv : SchedInv st)
    (hbind : alookup skey
      ((alookup pkey st.pools).getD { Servers := [] }).Servers = some s) :
    (alookup s.Endpoint (doPool i st pkey).unhealthy).isSome = true := by
  have hks : skey ∈ keysOf ((alookup pkey st.pools).getD { Servers := [] }).Servers :=
    alookup_isSome_iff_mem_keys.mp (by rw [hbind]; rfl)
  have hmem : skey ∈ serverKeysSorted
      ((alookup pkey st.pools).getD { Servers := [] }).Servers :=
    (List.perm_insertionSort rStr _).mem_iff.mpr hks
  obtain ⟨l1, l2, hsplit⟩ := List.append_of_mem hmem
  have h0 : SchedInv (withBucket st i pkey
      ((alookup pkey ((alookup i st.rounds).getD [])).getD [])) :=
    @SchedInv_congr st (withBucket st i pkey (bucketAt st i pkey)) rfl
      (fun j q => (bucketAt_withBucket_same st i pkey j q).symm) rfl rfl rfl hinv
  have hP := foldl_preserve (fun stb : SchedState × List (String × Server) =>
      SchedInv (withBucket stb.1 i pkey stb.2) ∧
      ((alookup s.Endpoint stb.1.unhealthy).isSome = true ∨
        alookup skey ((alookup pkey stb.1.pools).getD { Servers := [] }).Servers = some s))
    (doServer pkey)
    (fun stb k hstb => ⟨doServer_preserves i pkey k stb.1 stb.2 hstb.1,
      doServer_Q pkey skey k s stb.1 stb.2 hok hstb.2⟩)
    l1 (st, (alookup pkey ((alookup i st.rounds).getD [])).getD [])
    ⟨h0, Or.inr hbind⟩
  obtain ⟨hinv1, hq1⟩ := hP
  have hsec : (alookup s.Endpoint (doServer pkey
      (l1.foldl (doServer pkey)
        (st, (alookup pkey ((alookup i st.rounds).getD [])).getD []))
      skey).1.unhealthy).isSome = true := by
    rcases hq1 with hl | hr
    · exact doServer_unhealthy_mono pkey skey _ s.Endpoint hl
    · obtain ⟨⟨_, _⟩, _, _, _, hprocok', _⟩ := hinv1
      have hmem0 : (skey, s) ∈ (poolAt (withBucket
          (l1.foldl (doServer pkey)
            (st, (alookup pkey ((alookup i st.rounds).getD [])).getD [])).1
          i pkey
          (l1.foldl (doServer pkey)
            (st, (alookup pkey ((alookup i st.rounds).getD [])).getD [])).2).pools
          pkey).Servers :=
        mem_of_alookup_eq_some hr
      have hproc_false : s.Processed = false := by
        cases hsp : s.Processed with
        | false => rfl
        | true =>
          exfalso
          have h2 : areAllSetsOK s = true := hprocok' pkey (skey, s) hmem0 hsp
          rw [h2] at hok
          exact absurd hok (by simp)
      exact doServer_secures pkey skey s _ _ hok hr hproc_false
  have hfin := foldl_preserve (fun stb : SchedState × List (String × Server) =>
      (alookup s.Endpoint stb.1.unhealthy).isSome = true) (doServer pkey)
    (fun stb k hstb => doServer_unhealthy_mono pkey k stb s.Endpoint hstb) l2
    (doServer pkey
      (l1.foldl (doServer pkey)
        (st, (alookup pkey ((alookup i st.rounds).getD [])).getD []))
      skey) hsec
  show (alookup s.Endpoint
      (((serverKeysSorted ((alookup pkey st.pools).getD { Servers := [] }).Servers).foldl
        (doServer pkey)
        (st, (alookup pkey ((alookup i st.rounds).getD [])).getD [])).1.unhealthy)).isSome
      = true
  rw [hsplit, List.foldl_append, List.foldl_cons]
  exact hfin

/-- A full round failure-lists every ineligible server of every pool. -/
theorem doRound_secures (poolss : List String) (i : Nat) (st : SchedState)
    (pkey skey : String) (s : Server) (hok : areAllSetsOK s = false)
    (hmem : pkey ∈ poolss) (hinv : SchedInv st)
    (hbind : alookup skey
      ((alookup pkey st.pools).getD { Servers := [] }).Servers = some s) :
    (alookup s.Endpoint (doRound poolss i st).unhealthy).isSome = true := by
  obtain ⟨l1, l2, hsplit⟩ := List.append_of_mem hmem
  have hQQ := foldl_preserve (fun st' : SchedState =>
      (alookup s.Endpoint st'.unhealthy).isSome = true ∨
      (SchedInv st' ∧
        alookup skey ((alookup pkey st'.pools).getD { Servers := [] }).Servers = some s))
    (doPool i)
    (fun st' p' hst' => by
      rcases hst' with hl | ⟨hi, hb⟩
      · exact Or.inl (doPool_unhealthy_mono i st' p' s.Endpoint hl)
      · by_cases hpq : p' = pkey
        · subst hpq
          exact Or.inl (doPool_secures i st' p' skey s hok hi hb)
        · refine Or.inr ⟨doPool_preserves i st' p' hi, ?_⟩
          rw [doPool_pools_ne i st' hpq]
          exact hb)
    l1 st (Or.inr ⟨hinv, hbind⟩)
  have hsec : (alookup s.Endpoint
      (doPool i (l1.foldl (doPool i) st) pkey).unhealthy).isSome = true := by
    rcases hQQ with hl | ⟨hi, hb⟩
    · exact doPool_unhealthy_mono i _ pkey s.Endpoint hl
    · exact doPool_secures i _ pkey skey s hok hi hb
  have hfin := foldl_preserve (fun st' : SchedState =>
      (alookup s.Endpoint st'.unhealthy).isSome = true) (doPool i)
    (fun st' p' hst' => doPool_unhealthy_mono i st' p' s.Endpoint hst') l2
    (doPool i (l1.foldl (doPool i) st) pkey) hsec
  show (alookup s.Endpoint (poolss.foldl (doPool i) st).unhealthy).isSome = true
  rw [hsplit, List.foldl_append, List.foldl_cons]
  exact hfin

/-- The round loop failure-lists every ineligible server of every pool:
either the first round secures it, or every server was already processed,
which an ineligible server cannot be. -/
theorem runRounds_secures (poolss : List String) (i0 : Nat) (rest : List Nat)
    (st : SchedState) (pkey skey : String) (s : Server)
    (hok : areAllSetsOK s = false) (hmem : pkey ∈ poolss) (hinv : SchedInv st)
    (hbind : alookup skey
      ((alookup pkey st.pools).getD { Servers := [] }).Servers = some s) :
    (alookup s.Endpoint (runRounds poolss (i0 :: rest) st).unhealthy).isSome = true := by
  unfold runRounds
  by_cases hc : st.processed ≥ st.totalServers
  · exfalso
    obtain ⟨⟨_, _⟩, _, _, _, hprocok', _, _, _, _, hc1, hc2⟩ := hinv
    rw [hc1, hc2] at hc
    have hge : numServers st.pools ≤ numProcessed st.pools := by exact_mod_cast hc
    have hall := all_processed_of_counts st.pools hge
    have hmem0 : (skey, s) ∈ (poolAt st.pools pkey).Servers :=
      mem_of_alookup_eq_some hbind
    have hmem1 : ∃ pp ∈ st.pools, (skey, s) ∈ pp.2.Servers := by
      unfold poolAt at hmem0
      cases hq : alookup pkey st.pools with
      | none =>
        rw [hq] at hmem0
        simp at hmem0
      | some p0 =>
        rw [hq] at hmem0
        exact ⟨(pkey, p0), mem_of_alookup_eq_some hq, hmem0⟩
    obtain ⟨pp, hpp, hmem2⟩ := hmem1
    have hsp : s.Processed = true := hall pp hpp (skey, s) hmem2
    have h2 : areAllSetsOK s = true := hprocok' pkey (skey, s) hmem0 hsp
    rw [h2] at hok
    exact absurd hok (by simp)
  · rw [if_neg hc]
    exact runRounds_unhealthy_mono poolss rest (doRound poolss i0 st) s.Endpoint
      (doRound_secures poolss i0 st pkey skey s hok hmem hinv hbind)

end SchedLemmas

/-! ## Claim theorems: topology builder -/

/-- Claim C2: after topology construction, every per-server set view has
`CanReboot = true` iff its globally accumulated `BadDisks` count is
strictly less than `SCParity - 1`; at the boundary, parity 2 with 0 bad
disks gives `CanReboot = true` and parity 2 with 1 bad disk gives
`CanReboot = false`. -/
theorem canReboot_threshold :
    (∀ (host upath : String → String) (b : Backend) (disks : List DiskRecord)
      (PI h : String) (SI : Int) (se : Set),
      viewAt (getInfra host upath b disks).1 PI h SI = some se →
      (se.CanReboot = true ↔ se.BadDisks < se.SCParity - 1)) ∧
    ((viewAt (getInfra exHost exPath bpar rsOK).1 "1" "a" 1).map Set.SCParity = some 2 ∧
     (viewAt (getInfra exHost exPath bpar rsOK).1 "1" "a" 1).map Set.BadDisks = some 0 ∧
     (viewAt (getInfra exHost exPath bpar rsOK).1 "1" "a" 1).map Set.CanReboot = some true) ∧
    ((viewAt (getInfra exHost exPath bpar rsBad).1 "1" "b" 2).map Set.SCParity = some 2 ∧
     (viewAt (getInfra exHost exPath bpar rsBad).1 "1" "b" 2).map Set.BadDisks = some 1 ∧
     (viewAt (getInfra exHost exPath bpar rsBad).1 "1" "b" 2).map Set.CanReboot = some false) := by
  refine ⟨?_, by decide, by decide⟩
  intro host upath b disks PI h SI se hse
  obtain ⟨h1, h2, h3, _, _⟩ := view_final_spec host upath b disks PI h SI se hse
  rw [h1, h2, h3]
  by_cases hc : badCount disks PI (toString SI) ≥ b.StandardSCParity - 1
  · simp only [hc, if_true]
    constructor
    · intro hfalse
      exact absurd hfalse (by simp)
    · intro hlt
      omega
  · simp only [hc, if_false]
    constructor
    · intro _
      omega
    · intro _
      trivial

/-- Witness for C2 at the healthy boundary topology. -/
theorem canReboot_threshold_witness :
    ∃ se, viewAt (getInfra exHost exPath bpar rsOK).1 "1" "a" 1 = some se ∧
      (se.CanReboot = true ↔ se.BadDisks < se.SCParity - 1) := by
  cases hv : viewAt (getInfra exHost exPath bpar rsOK).1 "1" "a" 1 with
  | none => exact absurd hv (by decide)
  | some se =>
    exact ⟨se, rfl, canReboot_threshold.1 exHost exPath bpar rsOK "1" "a" 1 se hv⟩

/-- Claim C3: all per-server views of one `(pool, set)` identity agree on
`BadDisks` and `CanReboot`, and the shared `BadDisks` value is the number
of input records of that identity whose state is not `"ok"`, summed across
all servers. -/
theorem set_views_agree :
    ∀ (host upath : String → String) (b : Backend) (disks : List DiskRecord)
      (PI h1 h2 : String) (SI : Int) (se1 se2 : Set),
      viewAt (getInfra host upath b disks).1 PI h1 SI = some se1 →
      viewAt (getInfra host upath b disks).1 PI h2 SI = some se2 →
      se1.BadDisks = se2.BadDisks ∧ se1.CanReboot = se2.CanReboot ∧
        se1.BadDisks = badCount disks PI (toString SI) := by
  intro host upath b disks PI h1 h2 SI se1 se2 hse1 hse2
  obtain ⟨_, hb1, hc1, _, _⟩ := view_final_spec host upath b disks PI h1 SI se1 hse1
  obtain ⟨_, hb2, hc2, _, _⟩ := view_final_spec host upath b disks PI h2 SI se2 hse2
  refine ⟨?_, ?_, hb1⟩
  · rw [hb1, hb2]
  · rw [hc1, hc2]

/-- Witness for C3 on a set spanning two servers, one bad disk. -/
theorem set_views_agree_witness :
    ∃ se1 se2,
      viewAt (getInfra exHost exPath bpar rsShared).1 "1" "a" 1 = some se1 ∧
      viewAt (getInfra exHost exPath bpar rsShared).1 "1" "b" 1 = some se2 ∧
      se1.BadDisks = se2.BadDisks ∧ se1.CanReboot = se2.CanReboot ∧
      se1.BadDisks = badCount rsShared "1" (toString (1 : Int)) := by
  cases hv1 : viewAt (getInfra exHost exPath bpar rsShared).1 "1" "a" 1 with
  | none => exact absurd hv1 (by decide)
  | some se1 =>
    cases hv2 : viewAt (getInfra exHost exPath bpar rsShared).1 "1" "b" 1 with
    | none => exact absurd hv2 (by decide)
    | some se2 =>
      exact ⟨se1, se2, rfl, rfl,
        set_views_agree exHost exPath bpar rsShared "1" "a" "b" 1 se1 se2 hv1 hv2⟩

/-- Claim C10: inside a per-server set view, disks are keyed by the full
endpoint string, so the stored disk under key `e` is the image of the
*last* input record of that `(pool, hostname, set)` view with endpoint
`e` (later records overwrite earlier ones), while the global `BadDisks`
count still counts every non-`"ok"` record, overwritten ones included. -/
theorem disk_overwrite_by_endpoint :
    ∀ (host upath : String → String) (b : Backend) (disks : List DiskRecord)
      (PI h : String) (SI : Int) (e : String),
      alookup e (disksAt (getInfra host upath b disks).1 PI h SI) =
        ((disks.filter (fun d =>
          decide (matchesView host d PI h SI ∧ d.Endpoint = e))).getLast?).map
          (mkDisk upath) ∧
      (∀ se, viewAt (getInfra host upath b disks).1 PI h SI = some se →
        se.BadDisks = badCount disks PI (toString SI)) := by
  intro host upath b disks PI h SI e
  constructor
  · rw [disksAt_getInfra]
    exact disks_last_spec host upath b disks PI h SI e
  · intro se hse
    exact (view_final_spec host upath b disks PI h SI se hse).2.1

/-- Witness for C10 on two records with the same endpoint: the later (bad)
record survives in `Disks` and both records are counted in `BadDisks`. -/
theorem disk_overwrite_by_endpoint_witness :
    alookup "a1" (disksAt (getInfra exHost exPath bpar rsDupEndpoint).1 "1" "a" 1) =
      ((rsDupEndpoint.filter (fun d =>
        decide (matchesView exHost d "1" "a" 1 ∧ d.Endpoint = "a1"))).getLast?).map
        (mkDisk exPath) ∧
    (∀ se, viewAt (getInfra exHost exPath bpar rsDupEndpoint).1 "1" "a" 1 = some se →
      se.BadDisks = badCount rsDupEndpoint "1" (toString (1 : Int))) := by
  exact disk_overwrite_by_endpoint exHost exPath bpar rsDupEndpoint "1" "a" 1 "a1"

/-- Claim C1: scheduler safety — for every input topology, no two distinct
servers placed in the same reboot round share membership in any erasure
set (a `Set` being identified by its `(pool, set id)` pair).  Within one
pool's bucket this is the `haveMatchingSets` conflict check; across pools
it holds because every set view is tagged with its own pool. -/
theorem scheduler_round_safety (host upath : String → String) (b : Backend)
    (disks : List DiskRecord) (i : Nat) (p q : String) (sv1 sv2 : String × Server)
    (h1 : sv1 ∈ bucketAt (makeHostfile (getInfra host upath b disks).1
      (getInfra host upath b disks).2) i p)
    (h2 : sv2 ∈ bucketAt (makeHostfile (getInfra host upath b disks).1
      (getInfra host upath b disks).2) i q)
    (hne : p ≠ q ∨ sv1 ≠ sv2) :
    ¬ sharesErasureSet sv1.2 sv2.2 := by
  obtain ⟨hstruct, htoteq⟩ := getInfra_structure host upath b disks
  have hinv : SchedInv (makeHostfile (getInfra host upath b disks).1
      (getInfra host upath b disks).2) :=
    makeHostfile_inv _ _
      (fun pp hpp sv hsv => (hstruct pp hpp sv hsv).1)
      (fun pp hpp sv hsv => (hstruct pp hpp sv hsv).2.1)
      (fun pp hpp sv hsv => (hstruct pp hpp sv hsv).2.2)
      htoteq
  obtain ⟨⟨htagP, htagB⟩, hsafe, helig, hplaced, hprocok, hendk, hfail1, hfail2,
    honce, hc1, hc2⟩ := hinv
  intro hshare
  by_cases hpq : p = q
  · subst hpq
    have hsv12 : sv1 ≠ sv2 := by
      rcases hne with h | h
      · exact absurd rfl h
      · exact h
    have hps : List.Pairwise (fun a b : String × Server =>
        haveMatchingSets a.2 b.2 = false ∧ haveMatchingSets b.2 a.2 = false)
        (bucketAt (makeHostfile (getInfra host upath b disks).1
          (getInfra host upath b disks).2) i p) := hsafe i p
    have hrel := List.Pairwise.forall
      (by intro a c hac; exact ⟨hac.2, hac.1⟩) hps h1 h2 hsv12
    have hmatch := sharesErasureSet_of_matching hshare
    rw [hrel.1] at hmatch
    exact absurd hmatch (by simp)
  · obtain ⟨sid, se1, se2, hs1, hs2, hpool⟩ := hshare
    have ht1 := htagB i p sv1 h1 (sid, se1) (mem_of_alookup_eq_some hs1)
    have ht2 := htagB i q sv2 h2 (sid, se2) (mem_of_alookup_eq_some hs2)
    exact hpq (by rw [← ht1, ← ht2]; exact congrArg toString hpool)

theorem scheduler_round_safety_witness :
    ∃ sv1 sv2,
      sv1 ∈ bucketAt (makeHostfile (getInfra exHost exPath bpar rsTwoPools).1
        (getInfra exHost exPath bpar rsTwoPools).2) 0 "1" ∧
      sv2 ∈ bucketAt (makeHostfile (getInfra exHost exPath bpar rsTwoPools).1
        (getInfra exHost exPath bpar rsTwoPools).2) 0 "2" ∧
      ¬ sharesErasureSet sv1.2 sv2.2 := by
  cases hb1 : bucketAt (makeHostfile (getInfra exHost exPath bpar rsTwoPools).1
      (getInfra exHost exPath bpar rsTwoPools).2) 0 "1" with
  | nil => exact absurd hb1 (by decide)
  | cons x t1 =>
    cases hb2 : bucketAt (makeHostfile (getInfra exHost exPath bpar rsTwoPools).1
        (getInfra exHost exPath bpar rsTwoPools).2) 0 "2" with
    | nil => exact absurd hb2 (by decide)
    | cons y t2 =>
      refine ⟨x, y, ?_, ?_, ?_⟩
      · exact List.mem_cons_self x t1
      · exact List.mem_cons_self y t2
      · exact scheduler_round_safety exHost exPath bpar rsTwoPools 0 "1" "2" x y
          (by rw [hb1]; exact List.mem_cons_self x t1)
          (by rw [hb2]; exact List.mem_cons_self y t2)
          (Or.inl (by decide))

/-- Claim C4 counterexample: on `rsC4` every server is settled — `a` is
placed and processed, `b` is failure-listed — yet the early total/online
report never fires, because the early-exit check counts only processed
servers and failure-listed servers are never counted. -/
theorem scheduler_completeness_cex :
    (∀ pp ∈ (makeHostfile (getInfra exHost exPath bpar rsC4).1
        (getInfra exHost exPath bpar rsC4).2).pools,
      ∀ sv ∈ pp.2.Servers,
        sv.2.Processed = true ∨
          (alookup sv.1 (makeHostfile (getInfra exHost exPath bpar rsC4).1
            (getInfra exHost exPath bpar rsC4).2).unhealthy).isSome = true) ∧
    (makeHostfile (getInfra exHost exPath bpar rsC4).1
      (getInfra exHost exPath bpar rsC4).2).early = false := by decide

/-- Claim C4, amended: every placed server passed the eligibility check
and every failure-list entry failed it (so no server is in both), each
endpoint occupies at most one round of its pool, every server of the
topology that fails the eligibility check does end up in the failure list
(no ineligible server is omitted), and whenever the early total/online
report does fire, the failure list is empty and every server of every
pool is processed.  The report is not guaranteed to fire merely because
every server is settled: failure-listed servers never count towards the
processed total. -/
theorem scheduler_completeness_amended (host upath : String → String)
    (b : Backend) (disks : List DiskRecord) :
    (∀ i p sv, sv ∈ bucketAt (makeHostfile (getInfra host upath b disks).1
        (getInfra host upath b disks).2) i p → areAllSetsOK sv.2 = true) ∧
    (∀ e s, alookup e (makeHostfile (getInfra host upath b disks).1
        (getInfra host upath b disks).2).unhealthy = some s →
      areAllSetsOK s = false) ∧
    (∀ p e i j, (alookup e (bucketAt (makeHostfile (getInfra host upath b disks).1
          (getInfra host upath b disks).2) i p)).isSome = true →
      (alookup e (bucketAt (makeHostfile (getInfra host upath b disks).1
          (getInfra host upath b disks).2) j p)).isSome = true → i = j) ∧
    (∀ p skey s, alookup skey
        (poolAt (getInfra host upath b disks).1 p).Servers = some s →
      areAllSetsOK s = false →
      (alookup s.Endpoint (makeHostfile (getInfra host upath b disks).1
        (getInfra host upath b disks).2).unhealthy).isSome = true) ∧
    ((makeHostfile (getInfra host upath b disks).1
        (getInfra host upath b disks).2).early = true →
      (makeHostfile (getInfra host upath b disks).1
        (getInfra host upath b disks).2).unhealthy = [] ∧
      ∀ pp ∈ (makeHostfile (getInfra host upath b disks).1
          (getInfra host upath b disks).2).pools,
        ∀ sv ∈ pp.2.Servers, sv.2.Processed = true) := by
  obtain ⟨hstruct, htoteq⟩ := getInfra_structure host upath b disks
  have hinv : SchedInv (makeHostfile (getInfra host upath b disks).1
      (getInfra host upath b disks).2) :=
    makeHostfile_inv _ _
      (fun pp hpp sv hsv => (hstruct pp hpp sv hsv).1)
      (fun pp hpp sv hsv => (hstruct pp hpp sv hsv).2.1)
      (fun pp hpp sv hsv => (hstruct pp hpp sv hsv).2.2)
      htoteq
  obtain ⟨⟨htagP, htagB⟩, hsafe, helig, hplaced, hprocok, hendk, hfail1, hfail2,
    honce, hc1, hc2⟩ := hinv
  have hstart := SchedInv_init (getInfra host upath b disks).1
    (getInfra host upath b disks).2
    (fun pp hpp sv hsv => (hstruct pp hpp sv hsv).1)
    (fun pp hpp sv hsv => (hstruct pp hpp sv hsv).2.1)
    (fun pp hpp sv hsv => (hstruct pp hpp sv hsv).2.2)
    htoteq
  refine ⟨fun i p sv hsv => helig i p sv hsv, fun e s hs => hfail1 e s hs,
    fun p e i j hh1 hh2 => honce p e i j hh1 hh2, ?_, ?_⟩
  · -- ineligible servers of the topology are always failure-listed
    intro p skey s hbind hok
    have hpmem : p ∈ keysOf (getInfra host upath b disks).1 := by
      unfold poolAt at hbind
      cases hq : alookup p (getInfra host upath b disks).1 with
      | none =>
        rw [hq] at hbind
        simp [alookup] at hbind
      | some p0 => exact alookup_isSome_iff_mem_keys.mp (by rw [hq]; rfl)
    have hpmem2 : p ∈ stringKeysSorted (getInfra host upath b disks).1 :=
      (List.perm_insertionSort rStr _).mem_iff.mpr hpmem
    have h200 : List.range 200 = 0 :: List.map Nat.succ (List.range 199) := by
      rw [show (200 : Nat) = 199 + 1 from rfl, List.range_succ_eq_map]
    have hgoal : makeHostfile (getInfra host upath b disks).1
        (getInfra host upath b disks).2 =
        runRounds (stringKeysSorted (getInfra host upath b disks).1) (List.range 200)
          { pools := (getInfra host upath b disks).1, rounds := [], unhealthy := [],
            processed := 0, totalServers := (getInfra host upath b disks).2,
            early := false } := rfl
    rw [hgoal, h200]
    exact runRounds_secures (stringKeysSorted (getInfra host upath b disks).1) 0
      (List.map Nat.succ (List.range 199))
      { pools := (getInfra host upath b disks).1, rounds := [], unhealthy := [],
        processed := 0, totalServers := (getInfra host upath b disks).2,
        early := false }
      p skey s hok hpmem2 hstart hbind
  intro hearly
  have hre := runRounds_early (stringKeysSorted (getInfra host upath b disks).1)
    (List.range 200)
    { pools := (getInfra host upath b disks).1, rounds := [], unhealthy := [],
      processed := 0, totalServers := (getInfra host upath b disks).2,
      early := false }
    rfl hstart hearly
  obtain ⟨hinv2, hge⟩ := hre
  obtain ⟨⟨_, _⟩, _, _, _, hprocok2, _, hfail1b, hfail2b, _, hc1b, hc2b⟩ := hinv2
  rw [hc1b, hc2b] at hge
  have hge2 : numServers (makeHostfile (getInfra host upath b disks).1
        (getInfra host upath b disks).2).pools ≤
      numProcessed (makeHostfile (getInfra host upath b disks).1
        (getInfra host upath b disks).2).pools := by exact_mod_cast hge
  have hall := all_processed_of_counts _ hge2
  constructor
  · cases hu : (makeHostfile (getInfra host upath b disks).1
        (getInfra host upath b disks).2).unhealthy with
    | nil => rfl
    | cons hd tl =>
      exfalso
      have hlk : alookup hd.1 (makeHostfile (getInfra host upath b disks).1
          (getInfra host upath b disks).2).unhealthy = some hd.2 := by
        rw [hu]
        simp [alookup]
      obtain ⟨pk, s0, hlk2, hbad⟩ := hfail2b hd.1 hd.2 hlk
      have hmem0 : (hd.1, s0) ∈ (poolAt (makeHostfile (getInfra host upath b disks).1
          (getInfra host upath b disks).2).pools pk).Servers :=
        mem_of_alookup_eq_some hlk2
      have hmem1 : ∃ pp ∈ (makeHostfile (getInfra host upath b disks).1
          (getInfra host upath b disks).2).pools, (hd.1, s0) ∈ pp.2.Servers := by
        unfold poolAt at hmem0
        cases hq : alookup pk (makeHostfile (getInfra host upath b disks).1
            (getInfra host upath b disks).2).pools with
        | none => rw [hq] at hmem0; simp at hmem0
        | some p0 =>
          rw [hq] at hmem0
          exact ⟨(pk, p0), mem_of_alookup_eq_some hq, hmem0⟩
      obtain ⟨pp, hpp, hmem2⟩ := hmem1
      have hproc := hall pp hpp (hd.1, s0) hmem2
      have hok := hprocok2 pk (hd.1, s0) hmem0 hproc
      rw [hok] at hbad
      exact absurd hbad (by simp)
  · intro pp hpp sv hsv
    exact hall pp hpp sv hsv

theorem scheduler_completeness_amended_witness :
    ((makeHostfile (getInfra exHost exPath bpar rsTwoPools).1
      (getInfra exHost exPath bpar rsTwoPools).2).unhealthy = [] ∧
    ∀ pp ∈ (makeHostfile (getInfra exHost exPath bpar rsTwoPools).1
        (getInfra exHost exPath bpar rsTwoPools).2).pools,
      ∀ sv ∈ pp.2.Servers, sv.2.Processed = true) ∧
    ∃ s, alookup "b" (poolAt (getInfra exHost exPath bpar rsC4).1 "1").Servers = some s ∧
      areAllSetsOK s = false ∧
      (alookup s.Endpoint (makeHostfile (getInfra exHost exPath bpar rsC4).1
        (getInfra exHost exPath bpar rsC4).2).unhealthy).isSome = true := by
  constructor
  · exact (scheduler_completeness_amended exHost exPath bpar rsTwoPools).2.2.2.2 (by decide)
  · cases hv : alookup "b" (poolAt (getInfra exHost exPath bpar rsC4).1 "1").Servers with
    | none => exact absurd hv (by decide)
    | some s =>
      have hde : (alookup "b"
          (poolAt (getInfra exHost exPath bpar rsC4).1 "1").Servers).map areAllSetsOK =
          some false := by decide
      rw [hv, Option.map_some'] at hde
      have hok : areAllSetsOK s = false := Option.some.inj hde
      exact ⟨s, rfl, hok,
        (scheduler_completeness_amended exHost exPath bpar rsC4).2.2.2.1 "1" "b" s hv hok⟩

/-- Claim C7 counterexample: in `rsBad` the pool has a single server `b`
whose only set cannot lose a node; `makeHostfile` puts this sole server in
the failure list — the scheduler has no sole-server exemption. -/
theorem sole_server_failure_cex :
    (poolAt (getInfra exHost exPath bpar rsBad).1 "1").Servers.length = 1 ∧
    (alookup "b" (makeHostfile (getInfra exHost exPath bpar rsBad).1
      (getInfra exHost exPath bpar rsBad).2).unhealthy).isSome = true := by decide

/-- Claim C7, amended: `makeHostfile` applies the same `areAllSetsOK`
eligibility rule to every server, sole server of its pool or not: a server
reaches the failure list exactly by failing that check, and it denotes a
pools-model server failing the check.  (The sole-server exemption exists
only in `heal`'s endpoint filter, not in the scheduler.) -/
theorem sole_server_eligibility_amended (host upath : String → String)
    (b : Backend) (disks : List DiskRecord) :
    ∀ e s, alookup e (makeHostfile (getInfra host upath b disks).1
        (getInfra host upath b disks).2).unhealthy = some s →
      areAllSetsOK s = false ∧
      ∃ pkey s0, alookup e (poolAt (makeHostfile (getInfra host upath b disks).1
          (getInfra host upath b disks).2).pools pkey).Servers = some s0 ∧
        areAllSetsOK s0 = false := by
  obtain ⟨hstruct, htoteq⟩ := getInfra_structure host upath b disks
  have hinv : SchedInv (makeHostfile (getInfra host upath b disks).1
      (getInfra host upath b disks).2) :=
    makeHostfile_inv _ _
      (fun pp hpp sv hsv => (hstruct pp hpp sv hsv).1)
      (fun pp hpp sv hsv => (hstruct pp hpp sv hsv).2.1)
      (fun pp hpp sv hsv => (hstruct pp hpp sv hsv).2.2)
      htoteq
  obtain ⟨⟨htagP, htagB⟩, hsafe, helig, hplaced, hprocok, hendk, hfail1, hfail2,
    honce, hc1, hc2⟩ := hinv
  intro e s hs
  exact ⟨hfail1 e s hs, hfail2 e s hs⟩

theorem sole_server_eligibility_amended_witness :
    ∃ s, alookup "b" (makeHostfile (getInfra exHost exPath bpar rsBad).1
        (getInfra exHost exPath bpar rsBad).2).unhealthy = some s ∧
      areAllSetsOK s = false := by
  cases hu : alookup "b" (makeHostfile (getInfra exHost exPath bpar rsBad).1
      (getInfra exHost exPath bpar rsBad).2).unhealthy with
  | none => exact absurd hu (by decide)
  | some s =>
    exact ⟨s, rfl,
      (sole_server_eligibility_amended exHost exPath bpar rsBad "b" s hu).1⟩

/-! ## Scheduler determinism under map iteration order -/

theorem mem_nodup_alookup {K : Type} [DecidableEq K] {α : Type} {x : K × α}
    {l : List (K × α)} (hx : x ∈ l) (hn : (keysOf l).Nodup) :
    alookup x.1 l = some x.2 := by
  induction l with
  | nil => simp at hx
  | cons hd t ih =>
    rcases List.mem_cons.mp hx with h1 | h1
    · rw [h1]
      simp [alookup]
    · have hn2 : (keysOf t).Nodup := by
        simp only [keysOf, List.map_cons, List.nodup_cons] at hn
        exact hn.2
      have hxk : x.1 ∈ keysOf t := List.mem_map_of_mem Prod.fst h1
      have hk : ¬ hd.1 = x.1 := by
        intro hh
        simp only [keysOf, List.map_cons, List.nodup_cons] at hn
        exact hn.1 (hh ▸ hxk)
      simp only [alookup, hk, if_false]
      exact ih h1 hn2

theorem alookup_perm {K : Type} [DecidableEq K] {α : Type} {l1 l2 : List (K × α)}
    (hp : l1.Perm l2) (hn : (keysOf l1).Nodup) (k : K) :
    alookup k l1 = alookup k l2 := by
  have hkp : (keysOf l1).Perm (keysOf l2) := hp.map Prod.fst
  have hn2 : (keysOf l2).Nodup := hkp.nodup_iff.mp hn
  cases h1 : alookup k l1 with
  | some v =>
    have hm : ((k, v) : K × α) ∈ l2 := hp.mem_iff.mp (mem_of_alookup_eq_some h1)
    exact (mem_nodup_alookup hm hn2).symm
  | none =>
    have hk : k ∉ keysOf l2 := by
      intro hh
      have hk1 : k ∈ keysOf l1 := hkp.mem_iff.mpr hh
      have h2 := alookup_isSome_iff_mem_keys.mpr hk1
      rw [h1] at h2
      simp at h2
    exact (alookup_eq_none_of_not_mem hk).symm

theorem aupd_perm {K : Type} [DecidableEq K] {α : Type} {l1 l2 : List (K × α)}
    (hp : l1.Perm l2) (hn : (keysOf l1).Nodup) (k : K) (v : α) :
    (aupd k v l1).Perm (aupd k v l2) := by
  cases h1 : alookup k l1 with
  | none =>
    have hk1 : k ∉ keysOf l1 := by
      intro hh
      have h2 := alookup_isSome_iff_mem_keys.mpr hh
      rw [h1] at h2
      simp at h2
    have hk2 : k ∉ keysOf l2 := fun hh => hk1 ((hp.map Prod.fst).mem_iff.mpr hh)
    rw [aupd_of_not_mem hk1, aupd_of_not_mem hk2]
    exact hp.append_right [(k, v)]
  | some v0 =>
    have h2 : alookup k l2 = some v0 := by
      rw [← alookup_perm hp hn k]
      exact h1
    obtain ⟨a1, b1, hs1, hk1, hu1⟩ := alookup_spine h1
    obtain ⟨a2, b2, hs2, hk2, hu2⟩ := alookup_spine h2
    rw [hu1 v, hu2 v]
    have hl : (a1 ++ (k, v0) :: b1).Perm (a2 ++ (k, v0) :: b2) := by
      rw [← hs1, ← hs2]
      exact hp
    have hch : ((k, v0) :: (a1 ++ b1)).Perm ((k, v0) :: (a2 ++ b2)) :=
      (List.perm_middle.symm.trans hl).trans List.perm_middle
    have hc : (a1 ++ b1).Perm (a2 ++ b2) := hch.cons_inv
    exact (List.perm_middle.trans (List.Perm.cons (k, v) hc)).trans
      List.perm_middle.symm

theorem keysOf_aupd_nodup {K : Type} [DecidableEq K] {α : Type}
    {l : List (K × α)} (hn : (keysOf l).Nodup) (k : K) (v : α) :
    (keysOf (aupd k v l)).Nodup := by
  by_cases hk : k ∈ keysOf l
  · rw [keysOf_aupd_of_mem hk]
    exact hn
  · rw [keysOf_aupd_of_not_mem hk]
    rw [List.nodup_append]
    refine ⟨hn, List.nodup_singleton k, ?_⟩
    intro a ha hb
    simp at hb
    rw [hb] at ha
    exact hk ha

theorem insertionSort_eq_of_perm {l1 l2 : List String} (hp : l1.Perm l2) :
    List.insertionSort rStr l1 = List.insertionSort rStr l2 :=
  List.eq_of_perm_of_sorted
    ((List.perm_insertionSort rStr l1).trans
      (hp.trans (List.perm_insertionSort rStr l2).symm))
    (List.sorted_insertionSort rStr l1) (List.sorted_insertionSort rStr l2)

theorem stringKeysSorted_eq {p1 p2 : List (String × Pool)}
    (hp : (keysOf p1).Perm (keysOf p2)) :
    stringKeysSorted p1 = stringKeysSorted p2 := insertionSort_eq_of_perm hp

theorem serverKeysSorted_eq {l1 l2 : List (String × Server)} (hp : l1.Perm l2) :
    serverKeysSorted l1 = serverKeysSorted l2 :=
  insertionSort_eq_of_perm (hp.map Prod.fst)

theorem PoolsEquiv_lookup {p1 p2 : List (String × Pool)} (h : PoolsEquiv p1 p2)
    (k : String) :
    (alookup k p1 = none ∧ alookup k p2 = none) ∨
    ∃ v1 v2, alookup k p1 = some v1 ∧ alookup k p2 = some v2 ∧
      (keysOf v1.Servers).Nodup ∧ (keysOf v2.Servers).Nodup ∧
      v1.Servers.Perm v2.Servers := by
  obtain ⟨hn1, hn2, hkp, hmem⟩ := h
  cases h1 : alookup k p1 with
  | some v1 =>
    obtain ⟨v2, hv2, ha, hb, hc⟩ := hmem (k, v1) (mem_of_alookup_eq_some h1)
    exact Or.inr ⟨v1, v2, rfl, hv2, ha, hb, hc⟩
  | none =>
    have hk : k ∉ keysOf p2 := by
      intro hh
      have hk1 : k ∈ keysOf p1 := hkp.mem_iff.mpr hh
      have h2 := alookup_isSome_iff_mem_keys.mpr hk1
      rw [h1] at h2
      simp at h2
    exact Or.inl ⟨rfl, alookup_eq_none_of_not_mem hk⟩

theorem PoolsEquiv_aupd {p1 p2 : List (String × Pool)} (h : PoolsEquiv p1 p2)
    (k : String) {w1 w2 : Pool}
    (hw1 : (keysOf w1.Servers).Nodup) (hw2 : (keysOf w2.Servers).Nodup)
    (hwp : w1.Servers.Perm w2.Servers) :
    PoolsEquiv (aupd k w1 p1) (aupd k w2 p2) := by
  obtain ⟨hn1, hn2, hkp, hmem⟩ := h
  by_cases hk : k ∈ keysOf p1
  · have hk2 : k ∈ keysOf p2 := hkp.mem_iff.mp hk
    have he1 := keysOf_aupd_of_mem hk w1
    have he2 := keysOf_aupd_of_mem hk2 w2
    refine ⟨by rw [he1]; exact hn1, by rw [he2]; exact hn2,
      by rw [he1, he2]; exact hkp, ?_⟩
    intro pp hpp
    rcases mem_aupd hpp with h1 | h1
    · rw [h1]
      refine ⟨w2, ?_, hw1, hw2, hwp⟩
      show alookup k (aupd k w2 p2) = some w2
      rw [alookup_aupd_self]
    · by_cases hpk : pp.1 = k
      · have halk := mem_nodup_alookup hpp (by rw [he1]; exact hn1)
        rw [hpk] at halk
        rw [alookup_aupd_self] at halk
        have hw1p : pp.2 = w1 := (Option.some.inj halk).symm
        refine ⟨w2, ?_, ?_, hw2, ?_⟩
        · rw [hpk]
          show alookup k (aupd k w2 p2) = some w2
          rw [alookup_aupd_self]
        · rw [hw1p]
          exact hw1
        · rw [hw1p]
          exact hwp
      · obtain ⟨v2, hv2, ha, hb, hc⟩ := hmem pp h1
        refine ⟨v2, ?_, ha, hb, hc⟩
        rw [alookup_aupd_ne (fun hh => hpk hh.symm)]
        exact hv2
  · have hk2 : k ∉ keysOf p2 := fun hh => hk (hkp.mem_iff.mpr hh)
    have he1 := keysOf_aupd_of_not_mem hk w1
    have he2 := keysOf_aupd_of_not_mem hk2 w2
    refine ⟨?_, ?_, ?_, ?_⟩
    · rw [he1, List.nodup_append]
      refine ⟨hn1, List.nodup_singleton k, ?_⟩
      intro a ha hb
      simp at hb
      rw [hb] at ha
      exact hk ha
    · rw [he2, List.nodup_append]
      refine ⟨hn2, List.nodup_singleton k, ?_⟩
      intro a ha hb
      simp at hb
      rw [hb] at ha
      exact hk2 ha
    · rw [he1, he2]
      exact hkp.append_right [k]
    · intro pp hpp
      rcases mem_aupd hpp with h1 | h1
      · rw [h1]
        refine ⟨w2, ?_, hw1, hw2, hwp⟩
        show alookup k (aupd k w2 p2) = some w2
        rw [alookup_aupd_self]
      · have hpk : pp.1 ≠ k := by
          intro hh
          exact hk (by rw [← hh]; exact List.mem_map_of_mem Prod.fst h1)
        obtain ⟨v2, hv2, ha, hb, hc⟩ := hmem pp h1
        refine ⟨v2, ?_, ha, hb, hc⟩
        rw [alookup_aupd_ne (fun hh => hpk hh.symm)]
        exact hv2

/-- One `doServer` step started from related states and equal buckets
yields related states and equal buckets. -/
theorem doServer_equiv (pkey skey : String) (st1 st2 : SchedState)
    (bucket1 bucket2 : List (String × Server)) (hbeq : bucket1 = bucket2)
    (h : SchedEquiv st1 st2) :
    SchedEquiv (doServer pkey (st1, bucket1) skey).1
        (doServer pkey (st2, bucket2) skey).1 ∧
      (doServer pkey (st1, bucket1) skey).2 =
        (doServer pkey (st2, bucket2) skey).2 := by
  subst hbeq
  obtain ⟨hpe, hr, hu, hpr, ht, he⟩ := h
  rcases PoolsEquiv_lookup hpe pkey with ⟨h1, h2⟩ | ⟨v1, v2, h1, h2, hh1, hh2, hh3⟩
  · have e1 : alookup skey
        ((alookup pkey st1.pools).getD { Servers := [] }).Servers = none := by
      rw [h1]
      rfl
    have e2 : alookup skey
        ((alookup pkey st2.pools).getD { Servers := [] }).Servers = none := by
      rw [h2]
      rfl
    rw [doServer_none e1, doServer_none e2]
    exact ⟨⟨hpe, hr, hu, hpr, ht, he⟩, rfl⟩
  · have g1 : (alookup pkey st1.pools).getD { Servers := [] } = v1 := by
      rw [h1]
      rfl
    have g2 : (alookup pkey st2.pools).getD { Servers := [] } = v2 := by
      rw [h2]
      rfl
    have hlk : alookup skey v1.Servers = alookup skey v2.Servers :=
      alookup_perm hh3 hh1 skey
    cases hs : alookup skey v1.Servers with
    | none =>
      have e1 : alookup skey
          ((alookup pkey st1.pools).getD { Servers := [] }).Servers = none := by
        rw [g1]
        exact hs
      have e2 : alookup skey
          ((alookup pkey st2.pools).getD { Servers := [] }).Servers = none := by
        rw [g2, ← hlk]
        exact hs
      rw [doServer_none e1, doServer_none e2]
      exact ⟨⟨hpe, hr, hu, hpr, ht, he⟩, rfl⟩
    | some s =>
      have e1 : alookup skey
          ((alookup pkey st1.pools).getD { Servers := [] }).Servers = some s := by
        rw [g1]
        exact hs
      have e2 : alookup skey
          ((alookup pkey st2.pools).getD { Servers := [] }).Servers = some s := by
        rw [g2, ← hlk]
        exact hs
      cases hp : s.Processed with
      | true =>
        rw [doServer_processed e1 hp, doServer_processed e2 hp]
        exact ⟨⟨hpe, hr, hu, hpr, ht, he⟩, rfl⟩
      | false =>
        cases hok : areAllSetsOK s with
        | false =>
          rw [doServer_unhealthy e1 hp hok, doServer_unhealthy e2 hp hok]
          refine ⟨⟨hpe, hr, ?_, hpr, ht, he⟩, rfl⟩
          show aupd s.Endpoint s st1.unhealthy = aupd s.Endpoint s st2.unhealthy
          rw [hu]
        | true =>
          cases hb : alookup s.Endpoint bucket1 with
          | some x =>
            rw [doServer_inbucket e1 hp hok hb, doServer_inbucket e2 hp hok hb]
            exact ⟨⟨hpe, hr, hu, hpr, ht, he⟩, rfl⟩
          | none =>
            cases hc : bucket1.any (fun rv => haveMatchingSets rv.2 s) with
            | true =>
              rw [doServer_conflict e1 hp hok hb hc,
                doServer_conflict e2 hp hok hb hc]
              exact ⟨⟨hpe, hr, hu, hpr, ht, he⟩, rfl⟩
            | false =>
              rw [doServer_place e1 hp hok hb hc, doServer_place e2 hp hok hb hc]
              refine ⟨⟨?_, hr, hu, ?_, ht, he⟩, rfl⟩
              · show PoolsEquiv
                  (aupd pkey
                    { Servers := aupd skey { s with Processed := true }
                        ((alookup pkey st1.pools).getD { Servers := [] }).Servers }
                    st1.pools)
                  (aupd pkey
                    { Servers := aupd skey { s with Processed := true }
                        ((alookup pkey st2.pools).getD { Servers := [] }).Servers }
                    st2.pools)
                rw [g1, g2]
                exact PoolsEquiv_aupd ⟨(hpe.1 : (keysOf st1.pools).Nodup), hpe.2.1,
                    hpe.2.2.1, hpe.2.2.2⟩ pkey
                  (keysOf_aupd_nodup hh1 skey { s with Processed := true })
                  (keysOf_aupd_nodup hh2 skey { s with Processed := true })
                  (aupd_perm hh3 hh1 skey { s with Processed := true })
              · show st1.processed + 1 = st2.processed + 1
                rw [hpr]

/-- The inner `doServer` fold preserves state equivalence and bucket
equality along any common key list. -/
theorem foldl_doServer_equiv (pkey : String) (l : List String) :
    ∀ (b1 b2 : SchedState × List (String × Server)),
      SchedEquiv b1.1 b2.1 → b1.2 = b2.2 →
      SchedEquiv (l.foldl (doServer pkey) b1).1 (l.foldl (doServer pkey) b2).1 ∧
        (l.foldl (doServer pkey) b1).2 = (l.foldl (doServer pkey) b2).2 := by
  induction l with
  | nil => intro b1 b2 hx hy; exact ⟨hx, hy⟩
  | cons hd t ih =>
    intro b1 b2 hx hy
    have hstep := doServer_equiv pkey hd b1.1 b2.1 b1.2 b2.2 hy hx
    exact ih (doServer pkey b1 hd) (doServer pkey b2 hd) hstep.1 hstep.2

/-- `doPool` preserves state equivalence: the sorted server keys of the
two representations coincide, so both sides fold over the same list. -/
theorem doPool_equiv (i : Nat) (st1 st2 : SchedState) (pkey : String)
    (h : SchedEquiv st1 st2) : SchedEquiv (doPool i st1 pkey) (doPool i st2 pkey) := by
  obtain ⟨hpe, hr, hu, hpr, ht, he⟩ := h
  have hb0 : (alookup pkey ((alookup i st1.rounds).getD [])).getD [] =
      (alookup pkey ((alookup i st2.rounds).getD [])).getD [] := by rw [hr]
  have hsk : serverKeysSorted ((alookup pkey st1.pools).getD { Servers := [] }).Servers =
      serverKeysSorted ((alookup pkey st2.pools).getD { Servers := [] }).Servers := by
    rcases PoolsEquiv_lookup hpe pkey with ⟨h1, h2⟩ | ⟨v1, v2, h1, h2, hh1, hh2, hh3⟩
    · rw [h1, h2]
    · rw [h1, h2]
      simp only [Option.getD_some]
      exact serverKeysSorted_eq hh3
  obtain ⟨hse, hbe⟩ := foldl_doServer_equiv pkey
    (serverKeysSorted ((alookup pkey st1.pools).getD { Servers := [] }).Servers)
    (st1, (alookup pkey ((alookup i st1.rounds).getD [])).getD [])
    (st2, (alookup pkey ((alookup i st2.rounds).getD [])).getD [])
    ⟨hpe, hr, hu, hpr, ht, he⟩ hb0
  unfold doPool
  simp only []
  rw [← hsk]
  obtain ⟨hse1, hse2, hse3, hse4, hse5, hse6⟩ := hse
  exact ⟨hse1, by rw [hbe, hse2], hse3, hse4, hse5, hse6⟩

/-- `doRound` preserves state equivalence over any common pool-key list. -/
theorem doRound_equiv (poolss : List String) (i : Nat) :
    ∀ (st1 st2 : SchedState), SchedEquiv st1 st2 →
      SchedEquiv (doRound poolss i st1) (doRound poolss i st2) := by
  induction poolss with
  | nil => intro st1 st2 h; exact h
  | cons hd t ih =>
    intro st1 st2 h
    exact ih (doPool i st1 hd) (doPool i st2 hd) (doPool_equiv i st1 st2 hd h)

/-- The round loop preserves state equivalence. -/
theorem runRounds_equiv (poolss : List String) (l : List Nat) :
    ∀ (st1 st2 : SchedState), SchedEquiv st1 st2 →
      SchedEquiv (runRounds poolss l st1) (runRounds poolss l st2) := by
  induction l with
  | nil => intro st1 st2 h; exact h
  | cons i rest ih =>
    intro st1 st2 h
    obtain ⟨hpe, hr, hu, hpr, ht, he⟩ := h
    unfold runRounds
    rw [hpr, ht]
    by_cases hc : st2.processed ≥ st2.totalServers
    · rw [if_pos hc, if_pos hc]
      exact ⟨hpe, hr, hu, rfl, rfl, rfl⟩
    · rw [if_neg hc, if_neg hc]
      exact ih (doRound poolss i st1) (doRound poolss i st2)
        (doRound_equiv poolss i st1 st2 ⟨hpe, hr, hu, hpr, ht, he⟩)

/-- `makeHostfile` on two representations of the same pools map (equal up
to map iteration order) yields equivalent final states. -/
theorem makeHostfile_equiv (p1 p2 : List (String × Pool)) (tot : Int)
    (h : PoolsEquiv p1 p2) : SchedEquiv (makeHostfile p1 tot) (makeHostfile p2 tot) := by
  unfold makeHostfile
  simp only []
  rw [stringKeysSorted_eq h.2.2.1]
  exact runRounds_equiv (stringKeysSorted p2) (List.range 200) _ _
    ⟨h, rfl, rfl, rfl, rfl, rfl⟩

/-- Claim C9: scheduler determinism — the round assignments, failure list,
processed count and early flag produced by `makeHostfile` are a function
of the topology alone: any two assoc-list representations of the same
pools map (permutations with duplicate-free keys at the pool and server
level, i.e. the same Go map under two iteration orders) give identical
results, because every iteration is over `stringKeysSorted` /
`serverKeysSorted` key slices. -/
theorem scheduler_determinism (pools1 pools2 : List (String × Pool)) (tot : Int)
    (h : PoolsEquiv pools1 pools2) :
    (makeHostfile pools1 tot).rounds = (makeHostfile pools2 tot).rounds ∧
    (makeHostfile pools1 tot).unhealthy = (makeHostfile pools2 tot).unhealthy ∧
    (makeHostfile pools1 tot).processed = (makeHostfile pools2 tot).processed ∧
    (makeHostfile pools1 tot).early = (makeHostfile pools2 tot).early := by
  obtain ⟨_, hr, hu, hpr, _, he⟩ := makeHostfile_equiv pools1 pools2 tot h
  exact ⟨hr, hu, hpr, he⟩

theorem scheduler_determinism_witness :
    PoolsEquiv poolsFwd poolsRev ∧
    (makeHostfile poolsFwd 2).rounds = (makeHostfile poolsRev 2).rounds ∧
    (makeHostfile poolsFwd 2).unhealthy = (makeHostfile poolsRev 2).unhealthy ∧
    (makeHostfile poolsFwd 2).processed = (makeHostfile poolsRev 2).processed ∧
    (makeHostfile poolsFwd 2).early = (makeHostfile poolsRev 2).early := by
  have hpe : PoolsEquiv poolsFwd poolsRev := by
    refine ⟨by decide, by decide, ?_, ?_⟩
    · exact List.Perm.swap "2" "1" []
    · intro pp hpp
      rcases List.mem_cons.mp hpp with h1 | h1
      · refine ⟨{ Servers := [("a", srvA)] }, ?_, ?_, ?_, ?_⟩
        · rw [h1]
          decide
        · rw [h1]
          decide
        · decide
        · rw [h1]
      · have h2 : pp = ("2", { Servers := [("c", srvC)] }) := by
          simpa [poolsFwd] using h1
        refine ⟨{ Servers := [("c", srvC)] }, ?_, ?_, ?_, ?_⟩
        · rw [h2]
          decide
        · rw [h2]
          decide
        · decide
        · rw [h2]
  exact ⟨hpe, scheduler_determinism poolsFwd poolsRev 2 hpe⟩

end MinioClusterTool
